import Mathlib

/-
  Verification of the MedVault consent and field-level access-control subsystem.

  Shallow embedding of:
  - backend/src/services/midnight_service.ts : getNestedProperty, setNestedProperty,
    and the field-filtering step of MidnightService.getApprovedFields;
  - backend/src/services/smart_contracts.ts : SmartContractService (createContract,
    updateApprovedFields, revokeContract, checkFieldAccess, getApprovedFields,
    findByWallets) together with the in-memory MockSmartContract map;
  - backend/src/routes/patient.ts : connect-doctor, notifications respond,
    revoke-access handlers;
  - the doctor routes file : request-access and cancel-request handlers;
  - backend/src/models/patient.ts : NotificationModel (plain keyed CRUD on the
    notifications table);
  - backend/src/app.ts : getAvailableMedicalFields / validateMedicalFields.

  Records are modelled as JSON-like data (the Record data model of the system:
  nested mappings whose leaves are strings, numbers, booleans, nulls and lists).
  Property access `current[key]` is modelled as own-key lookup on a mapping and
  as absent on any non-mapping value; JavaScript prototype-chain properties and
  the exotic index/length properties of boxed primitives are outside the Record
  data model and are not modelled.
-/

namespace MedVault

/-! ## Field paths: JS `path.split('.')` and the dotted-string codec -/

/-- Character-level model of JavaScript `String.prototype.split` with the
one-character separator `'.'`: accumulates the current segment (reversed) and
starts a new segment at each dot.  `splitPathChars "a..b" = ["a", "", "b"]`,
`splitPathChars "" = [""]`. -/
def splitPathChars : List Char → List Char → List String
  | [], acc => [String.mk acc.reverse]
  | c :: rest, acc =>
    if c = '.' then String.mk acc.reverse :: splitPathChars rest []
    else splitPathChars rest (c :: acc)

/-- The source's `path.split('.')` as used by `getNestedProperty` and `setNestedProperty`. -/
def splitPath (s : String) : List String :=
  splitPathChars s.data []

/-- Modelled from the spec: `path_string(p)` — the dotted identifier formed by
joining the segments of a FieldPath with `'.'` (the spec's FieldPathCodec has
no join in the source; only its inverse, `split('.')`, appears there). -/
def dottedString : List String → String
  | [] => ""
  | [s] => s
  | s :: rest => s ++ "." ++ dottedString rest

/-- Modelled from the spec: the error of `FieldPathCodec.parse`. -/
inductive PathError where
  | invalidFieldPath
deriving DecidableEq

/-- Modelled from the spec: `parse(path: string) -> FieldPath` — "splits on `.`;
fails with `InvalidFieldPath` if any segment is empty."  The splitting itself is
the source's `path.split('.')` (`splitPath`); the emptiness check and the error
are not present in the source and are taken from the spec's words. -/
def parsePath (s : String) : Except PathError (List String) :=
  let segs := splitPath s
  if "" ∈ segs then .error .invalidFieldPath else .ok segs

/-! ## JSON-like record values -/

/-- A record value: the spec's `Value = String | Number | Bool | Null |
List Value | Map String Value` data model for medical records. -/
inductive Value where
  | vnull : Value
  | vbool : Bool → Value
  | vnum : Int → Value
  | vstr : String → Value
  | vlist : List Value → Value
  | vobj : List (String × Value) → Value

/-- JavaScript truthiness of a record value (`null`, `false`, `0` and `""` are
falsy; every object and array is truthy). -/
def truthy : Value → Bool
  | .vnull => false
  | .vbool b => b
  | .vnum n => decide (n ≠ 0)
  | .vstr s => decide (s ≠ "")
  | .vlist _ => true
  | .vobj _ => true

/-- First-match association lookup: JS own-property read on an object. -/
def objLookup : List (String × Value) → String → Option Value
  | [], _ => none
  | (k, v) :: rest, key => if k = key then some v else objLookup rest key

/-- JS property assignment on an object: replaces the binding in place when the
key exists (preserving insertion order), appends it otherwise. -/
def objSet : List (String × Value) → String → Value → List (String × Value)
  | [], key, v => [(key, v)]
  | (k, w) :: rest, key, v =>
    if k = key then (k, v) :: rest else (k, w) :: objSet rest key v

/-- Model of `current[key]` on a record value: own-key lookup on a mapping, absent on
every non-mapping value (see the header note on the Record data model). -/
def jsIndex : Value → String → Option Value
  | .vobj kvs, key => objLookup kvs key
  | _, _ => none

namespace MidnightService

/-- One step of the `reduce` inside `getNestedProperty`:
`current && current[key] !== undefined ? current[key] : undefined`. -/
def walkStep (current : Option Value) (key : String) : Option Value :=
  match current with
  | some c => if truthy c then jsIndex c key else none
  | none => none

/-- The `reduce` of `getNestedProperty` over an explicit segment list. -/
def getSegs (v : Value) (segs : List String) : Option Value :=
  segs.foldl walkStep (some v)

/-- Source `MidnightService.getNestedProperty(obj, path)`: walks `path.split('.')`
with `path.split('.').reduce((current, key) => current && current[key] !==
undefined ? current[key] : undefined, obj)`. -/
def getNestedProperty (obj : Value) (path : String) : Option Value :=
  getSegs obj (splitPath path)

/-- The walk step of `setNestedProperty`:
`if (!current[key]) current[key] = {}; return current[key]` — a missing or
falsy child is replaced by a fresh empty object, a truthy child is entered. -/
def childFor (kvs : List (String × Value)) (key : String) : Value :=
  match objLookup kvs key with
  | some c => if truthy c then c else Value.vobj []
  | none => Value.vobj []

/-- Source `MidnightService.setNestedProperty(obj, path, value)` on an explicit
segment list.  Descending into (or assigning a property of) a truthy
non-object throws a `TypeError` in strict mode, modelled as `none`. -/
def setSegs : Value → List String → Value → Option Value
  | .vobj kvs, [key], v => some (.vobj (objSet kvs key v))
  | .vobj kvs, key :: key2 :: rest, v =>
    match setSegs (childFor kvs key) (key2 :: rest) v with
    | some child2 => some (.vobj (objSet kvs key child2))
    | none => none
  | _, _, _ => none

/-- Source `MidnightService.setNestedProperty(obj, path, value)`. -/
def setNestedProperty (obj : Value) (path : String) (v : Value) : Option Value :=
  setSegs obj (splitPath path) v

/-- The field-filtering step of `MidnightService.getApprovedFields`: starting
from a fresh empty object, for each approved path get the value from the full
record and, when it is not `undefined`, set it into the accumulator at the same
path (`approvedFields.forEach(...)`).  A `TypeError` raised by a set aborts the
whole call (`none`). -/
def getApprovedFields (fullRecord : Value) (approvedFields : List String) :
    Option Value :=
  approvedFields.foldl
    (fun acc fieldPath =>
      match acc with
      | some filtered =>
        match getNestedProperty fullRecord fieldPath with
        | some value => setNestedProperty filtered fieldPath value
        | none => some filtered
      | none => none)
    (some (Value.vobj []))

end MidnightService

/-- Second definition for the refinement claim about `get`, following the
spec's words for `FieldPathCodec.get`: "walks the record one segment at a time;
returns absent if any intermediate segment is missing or not a mapping, or the
final key is missing", otherwise the stored value. -/
def specFieldGet : Value → List String → Option Value
  | v, [] => some v
  | .vobj kvs, key :: rest =>
    match objLookup kvs key with
    | some c => specFieldGet c rest
    | none => none
  | _, _ :: _ => none

/-! ## The consent registry: smart contracts, notifications, routes -/

/-- Values of the `smart_contracts.status` column. -/
inductive CStatus where
  | pending | active | revoked
deriving DecidableEq

/-- Values of the `notifications.status` column. -/
inductive NStatus where
  | pending | approved | denied
deriving DecidableEq

/-- One row of the `smart_contracts` table (timestamps omitted; the
`approved_fields` JSON string array is kept as a list). -/
structure ContractRow where
  id : Nat
  patientWallet : String
  doctorWallet : String
  contractAddress : String
  approvedFields : List String
  status : CStatus
deriving DecidableEq

/-- One `MockSmartContract` held in `SmartContractService.contracts`
(an in-process `Map` keyed by contract address). -/
structure MemContract where
  address : String
  patientWallet : String
  doctorWallet : String
  approvedFields : List String
  isActive : Bool
deriving DecidableEq

/-- One row of the `notifications` table. -/
structure NotificationRow where
  id : Nat
  doctorId : Nat
  patientId : Nat
  requestedFields : List String
  status : NStatus
deriving DecidableEq

/-- One row of the `patients` table (fields the consent subsystem reads). -/
structure PatientRow where
  id : Nat
  walletAddress : String
  medicalRecordCid : Option String
deriving DecidableEq

/-- One row of the `doctors` table (fields the consent subsystem reads). -/
structure DoctorRow where
  id : Nat
  walletAddress : String
deriving DecidableEq

/-- The backend state the consent subsystem operates on: the four SQLite
tables (rows listed in insertion order, as returned by an unordered
`SELECT`), the service's in-memory contract map, and the auto-increment /
address-generation counters. -/
structure RegistryState where
  patients : List PatientRow
  doctors : List DoctorRow
  contracts : List ContractRow
  notifications : List NotificationRow
  memContracts : List MemContract
  nextContractId : Nat
  nextNotificationId : Nat
  nextAddrSeed : Nat
deriving DecidableEq

/-- The `WHERE patient_wallet = ? AND doctor_wallet = ? AND status = 'active'`
predicate shared by `findByWallets`, `getApprovedFields` and
`checkFieldAccess`. -/
def isActivePair (pw dw : String) (c : ContractRow) : Bool :=
  decide (c.patientWallet = pw ∧ c.doctorWallet = dw ∧ c.status = CStatus.active)

/-- Lookup (`Map.get`) in the in-memory contract map (keyed by address). -/
def memLookup (l : List MemContract) (addr : String) : Option MemContract :=
  l.find? (fun m => decide (m.address = addr))

/-- Update (`Map.set`) of the in-memory contract map: replaces the entry with the same
address, appends otherwise. -/
def memSet : List MemContract → MemContract → List MemContract
  | [], m => [m]
  | x :: rest, m =>
    if x.address = m.address then m :: rest else x :: memSet rest m

/-- Address generation (a fresh uuid-based string per contract), modelled
with a counter. -/
def mkAddr (n : Nat) : String := "contract_" ++ toString n

/-- Errors surfaced to callers by the routes and the service (each constructor
corresponds to one distinct rejection response in the source). -/
inductive ApiError where
  | emptyFields
  | invalidFields
  | patientNotFound
  | doctorNotFound
  | noMedicalRecord
  | duplicateRequest
  | noConnection
  | notificationNotFound
  | notOwner
  | alreadyConnected
  | noActiveContract
  | notPending
  | contractNotFound
  | storageFailure
deriving DecidableEq

namespace SmartContractService

/-- Source `SmartContractService.createContract(patientWallet, doctorWallet,
approvedFields)`: deploys a `MockSmartContract` (fresh address, `isActive :=
true` after `deploy()`), stores it in the in-memory map, and INSERTs a row with
status `'active'`.  Returns the new row and the next state. -/
def createContract (pw dw : String) (fields : List String)
    (st : RegistryState) : ContractRow × RegistryState :=
  let addr := mkAddr st.nextAddrSeed
  let mem : MemContract := ⟨addr, pw, dw, fields, true⟩
  let row : ContractRow := ⟨st.nextContractId, pw, dw, addr, fields, .active⟩
  (row,
   { st with
      memContracts := memSet st.memContracts mem
      contracts := st.contracts ++ [row]
      nextContractId := st.nextContractId + 1
      nextAddrSeed := st.nextAddrSeed + 1 })

/-- Source `SmartContractService.updateApprovedFields(contractId,
approvedFields)`:
finds the row by id (error when absent), calls
`contract.updateApprovedFields(fields)` on the in-memory contract when the map
holds its address, then UPDATEs the row's `approved_fields`. -/
def updateApprovedFields (cid : Nat) (fields : List String)
    (st : RegistryState) : Except ApiError RegistryState :=
  match st.contracts.find? (fun c => decide (c.id = cid)) with
  | none => .error .contractNotFound
  | some row =>
    let mems :=
      match memLookup st.memContracts row.contractAddress with
      | some m => memSet st.memContracts { m with approvedFields := fields }
      | none => st.memContracts
    .ok { st with
            memContracts := mems
            contracts := st.contracts.map
              (fun c => if c.id = cid then { c with approvedFields := fields }
                        else c) }

/-- Source `SmartContractService.revokeContract(contractId)`: finds the row by id
(error when absent), calls `contract.revoke()` on the in-memory contract when
present (`isActive := false`, `approvedFields := []`), then UPDATEs the row's
status to `'revoked'`.  The row's `approved_fields` column is left untouched. -/
def revokeContract (cid : Nat) (st : RegistryState) :
    Except ApiError RegistryState :=
  match st.contracts.find? (fun c => decide (c.id = cid)) with
  | none => .error .contractNotFound
  | some row =>
    let mems :=
      match memLookup st.memContracts row.contractAddress with
      | some m =>
        memSet st.memContracts { m with isActive := false, approvedFields := [] }
      | none => st.memContracts
    .ok { st with
            memContracts := mems
            contracts := st.contracts.map
              (fun c => if c.id = cid then { c with status := .revoked }
                        else c) }

/-- Source `SmartContractService.checkFieldAccess(patientWallet, doctorWallet,
field)`: reads the first active row for the pair (false when none), then asks
the in-memory contract (`isActive && doctorWallet matches && field approved`),
falling back to the row's `approved_fields` when the map misses.  Any error is
caught and returns false. -/
def checkFieldAccess (st : RegistryState) (pw dw field : String) : Bool :=
  match st.contracts.find? (isActivePair pw dw) with
  | none => false
  | some row =>
    match memLookup st.memContracts row.contractAddress with
    | none => row.approvedFields.contains field
    | some m =>
      m.isActive && decide (m.doctorWallet = dw) &&
        m.approvedFields.contains field

/-- Source `SmartContractService.getApprovedFields(patientWallet,
doctorWallet)`:
the `approved_fields` of the first row for the pair with status `'active'`,
or the empty list when there is none. -/
def getApprovedFields (st : RegistryState) (pw dw : String) : List String :=
  match st.contracts.find? (isActivePair pw dw) with
  | none => []
  | some row => row.approvedFields

/-- Source `SmartContractService.findByWallets(patientWallet, doctorWallet)`:
the
first row for the pair with status `'active'`, if any. -/
def findByWallets (st : RegistryState) (pw dw : String) : Option ContractRow :=
  st.contracts.find? (isActivePair pw dw)

end SmartContractService

/-- Source `getAvailableMedicalFields()` from `app.ts`: the recognized-field
catalog. -/
def availableMedicalFields : List String :=
  [ "patientInfo.name", "patientInfo.dateOfBirth", "patientInfo.gender",
    "patientInfo.bloodType", "patientInfo.allergies",
    "medicalHistory.conditions", "medicalHistory.medications",
    "medicalHistory.surgeries", "medicalHistory.familyHistory",
    "vitals.bloodPressure", "vitals.heartRate", "vitals.temperature",
    "vitals.weight", "vitals.height",
    "labResults.bloodWork", "labResults.imaging", "labResults.pathology",
    "currentTreatment.medications", "currentTreatment.therapies",
    "currentTreatment.followUpInstructions" ]

/-- Source `validateMedicalFields(fields).invalid`: the requested paths that
are not
in the recognized-field catalog. -/
def invalidMedicalFields (fields : List String) : List String :=
  fields.filter (fun f => !(decide (f ∈ availableMedicalFields)))

namespace DoctorRoutes

/-- The `POST /api/doctor/request-access` handler, for an authenticated doctor
(`doctorId`, `doctorWallet`): rejects an empty field list, then unrecognized
fields, then a missing patient, then a patient without a record, then an
already-pending request for the pair, then a missing active connection; on
success INSERTs one pending notification.  Checks run in exactly this order
(the source's order); no state is written before the insert. -/
def requestAccess (doctorId : Nat) (doctorWallet : String) (patientId : Nat)
    (fields : List String) (st : RegistryState) :
    Except ApiError RegistryState :=
  if fields.isEmpty then .error .emptyFields
  else if invalidMedicalFields fields ≠ [] then .error .invalidFields
  else
    match st.patients.find? (fun x => decide (x.id = patientId)) with
    | none => .error .patientNotFound
    | some pa =>
      match pa.medicalRecordCid with
      | none => .error .noMedicalRecord
      | some _ =>
        match st.notifications.find? (fun n =>
            decide (n.doctorId = doctorId ∧ n.patientId = patientId ∧
                    n.status = NStatus.pending)) with
        | some _ => .error .duplicateRequest
        | none =>
          match SmartContractService.findByWallets st pa.walletAddress
              doctorWallet with
          | none => .error .noConnection
          | some c =>
            -- the source re-checks `status !== 'active'` although
            -- `findByWallets` already filters on it
            if c.status = CStatus.active then
              .ok { st with
                      notifications := st.notifications ++
                        [⟨st.nextNotificationId, doctorId, patientId, fields,
                          .pending⟩]
                      nextNotificationId := st.nextNotificationId + 1 }
            else .error .noConnection

/-- The `DELETE /api/doctor/requests/:id` handler (cancel a pending request):
not-found, ownership and pending checks, then `NotificationModel.deleteById`
(a DELETE by id; the row is removed, no trace kept). -/
def cancelRequest (doctorUserId notifId : Nat) (st : RegistryState) :
    Except ApiError RegistryState :=
  match st.notifications.find? (fun n => decide (n.id = notifId)) with
  | none => .error .notificationNotFound
  | some n =>
    if n.doctorId = doctorUserId then
      if n.status = NStatus.pending then
        .ok { st with
                notifications :=
                  st.notifications.filter (fun m => !(decide (m.id = notifId))) }
      else .error .notPending
    else .error .notOwner

end DoctorRoutes

/-- The holder's decision in `POST /api/patient/notifications/:id/respond`. -/
inductive RespondAction where
  | approve | deny
deriving DecidableEq

namespace PatientRoutes

open SmartContractService

/-- The `POST /api/patient/notifications/:id/respond` handler, for an
authenticated patient `patientUserId`.  After the not-found and ownership
checks it unconditionally UPDATEs the notification's status
(`NotificationModel.updateStatus` has no pending guard), and then, on approve,
updates or creates the smart contract for the pair.  `storeOk` models the
spec's store-fault collaborator contract at the contract write: when the
contract store raises, control reaches the route's catch handler with the
notification update already committed, and the caller sees an error.  The
result pairs the outcome with the state the backend is left in. -/
def respondNotification (storeOk : Bool) (patientUserId notifId : Nat)
    (action : RespondAction) (st : RegistryState) :
    Option ApiError × RegistryState :=
  match st.notifications.find? (fun n => decide (n.id = notifId)) with
  | none => (some .notificationNotFound, st)
  | some n =>
    if n.patientId = patientUserId then
      let newStatus : NStatus :=
        match action with
        | .approve => .approved
        | .deny => .denied
      let st1 := { st with
        notifications := st.notifications.map
          (fun m => if m.id = notifId then { m with status := newStatus }
                    else m) }
      match action with
      | .deny => (none, st1)
      | .approve =>
        match st1.patients.find? (fun x => decide (x.id = patientUserId)),
              st1.doctors.find? (fun x => decide (x.id = n.doctorId)) with
        | some pa, some doc =>
          if storeOk then
            match findByWallets st1 pa.walletAddress doc.walletAddress with
            | some e =>
              match updateApprovedFields e.id n.requestedFields st1 with
              | .ok st2 => (none, st2)
              | .error err => (some err, st1)
            | none =>
              (none,
               (createContract pa.walletAddress doc.walletAddress
                  n.requestedFields st1).2)
          else (some .storageFailure, st1)
        | _, _ => (none, st1) -- the source silently skips the contract work
    else (some .notOwner, st)

/-- The `POST /api/patient/connect-doctor` handler: patient and doctor
lookups, duplicate-connection check via `findByWallets` (which only sees
active rows), then `createContract` with no approved fields. -/
def connectDoctor (patientUserId doctorId : Nat) (st : RegistryState) :
    Except ApiError RegistryState :=
  match st.patients.find? (fun x => decide (x.id = patientUserId)) with
  | none => .error .patientNotFound
  | some pa =>
    match st.doctors.find? (fun x => decide (x.id = doctorId)) with
    | none => .error .doctorNotFound
    | some doc =>
      match findByWallets st pa.walletAddress doc.walletAddress with
      | some _ => .error .alreadyConnected
      | none => .ok (createContract pa.walletAddress doc.walletAddress [] st).2

/-- The `POST /api/patient/revoke-access/:doctorId` handler: patient and
doctor lookups, `findByWallets` (404 when no active contract), then
`revokeContract`. -/
def revokeAccess (patientUserId doctorId : Nat) (st : RegistryState) :
    Except ApiError RegistryState :=
  match st.patients.find? (fun x => decide (x.id = patientUserId)) with
  | none => .error .patientNotFound
  | some pa =>
    match st.doctors.find? (fun x => decide (x.id = doctorId)) with
    | none => .error .doctorNotFound
    | some doc =>
      match findByWallets st pa.walletAddress doc.walletAddress with
      | none => .error .noActiveContract
      | some c => revokeContract c.id st

end PatientRoutes

/-- One registry operation, as invoked through the API layer. -/
inductive RegOp where
  | connect (patientUserId doctorId : Nat)
  | request (doctorId : Nat) (doctorWallet : String) (patientId : Nat)
      (fields : List String)
  | respond (storeOk : Bool) (patientUserId notifId : Nat)
      (action : RespondAction)
  | cancel (doctorUserId notifId : Nat)
  | revoke (patientUserId doctorId : Nat)

/-- Apply one operation; a rejected operation leaves the state unchanged
(its checks run before any write), and a respond call leaves whatever state
the handler produced. -/
def applyOp (op : RegOp) (st : RegistryState) : RegistryState :=
  match op with
  | .connect p d =>
    match PatientRoutes.connectDoctor p d st with
    | .ok st' => st'
    | .error _ => st
  | .request did dw pid fields =>
    match DoctorRoutes.requestAccess did dw pid fields st with
    | .ok st' => st'
    | .error _ => st
  | .respond ok p nid a => (PatientRoutes.respondNotification ok p nid a st).2
  | .cancel d nid =>
    match DoctorRoutes.cancelRequest d nid st with
    | .ok st' => st'
    | .error _ => st
  | .revoke p d =>
    match PatientRoutes.revokeAccess p d st with
    | .ok st' => st'
    | .error _ => st

/-- Run a sequence of registry operations. -/
def runOps : List RegOp → RegistryState → RegistryState
  | [], st => st
  | op :: rest, st => runOps rest (applyOp op st)

/-- The number of active grants a state holds for one
(holder, requester) pair. -/
def activeGrantCount (st : RegistryState) (pw dw : String) : Nat :=
  st.contracts.countP (isActivePair pw dw)

/-- One segment list leads into another: the first is an initial run of the
second. -/
def PrefixOf (a b : List String) : Prop := ∃ t, a ++ t = b

/-! ## Lemmas: the nested-property walk -/

theorem prefixOf_nil (b : List String) : PrefixOf [] b := ⟨b, rfl⟩

theorem prefixOf_refl (a : List String) : PrefixOf a a := ⟨[], by simp⟩

theorem prefixOf_cons_iff (x y : String) (a b : List String) :
    PrefixOf (x :: a) (y :: b) ↔ x = y ∧ PrefixOf a b := by
  constructor
  · rintro ⟨t, ht⟩
    simp only [List.cons_append, List.cons.injEq] at ht
    exact ⟨ht.1, t, ht.2⟩
  · rintro ⟨rfl, t, ht⟩
    exact ⟨t, by simp [ht]⟩

theorem prefixOf_append (a t : List String) : PrefixOf a (a ++ t) := ⟨t, rfl⟩

theorem eq_append_drop_of_prefixOf (a b : List String) (h : PrefixOf a b) :
    b = a ++ b.drop a.length := by
  obtain ⟨t, rfl⟩ := h
  simp

namespace MidnightService

theorem foldl_walkStep_none (segs : List String) :
    segs.foldl walkStep none = none := by
  induction segs with
  | nil => rfl
  | cons k rest ih => simpa [walkStep] using ih

theorem specFieldGet_nil (v : Value) : specFieldGet v [] = some v := by
  cases v <;> rfl

theorem getSegs_eq_spec (segs : List String) (v : Value) :
    getSegs v segs = specFieldGet v segs := by
  induction segs generalizing v with
  | nil => cases v <;> rfl
  | cons k rest ih =>
    have hstep : getSegs v (k :: rest) =
        rest.foldl walkStep (walkStep (some v) k) := rfl
    cases v with
    | vobj kvs =>
      rw [hstep]
      show rest.foldl walkStep (if truthy (.vobj kvs) then
        jsIndex (.vobj kvs) k else none) = _
      simp only [truthy, if_true, jsIndex]
      cases h : objLookup kvs k with
      | none => simp [specFieldGet, h, foldl_walkStep_none]
      | some c => simp [specFieldGet, h]; exact ih c
    | vnull => rw [hstep]; simp [walkStep, truthy, foldl_walkStep_none, specFieldGet]
    | vbool b =>
      rw [hstep]
      cases b <;> simp [walkStep, truthy, jsIndex, foldl_walkStep_none, specFieldGet]
    | vnum n =>
      rw [hstep]; simp [walkStep, truthy, jsIndex, foldl_walkStep_none, specFieldGet]
    | vstr s =>
      rw [hstep]; simp [walkStep, truthy, jsIndex, foldl_walkStep_none, specFieldGet]
    | vlist xs =>
      rw [hstep]; simp [walkStep, truthy, jsIndex, foldl_walkStep_none, specFieldGet]

theorem getSegs_append (v : Value) (a b : List String) :
    getSegs v (a ++ b) =
      match getSegs v a with
      | some w => getSegs w b
      | none => none := by
  show (a ++ b).foldl walkStep (some v) = _
  rw [List.foldl_append]
  cases h : getSegs v a with
  | none => rw [show a.foldl walkStep (some v) = none from h]
            exact foldl_walkStep_none b
  | some w => rw [show a.foldl walkStep (some v) = some w from h]; rfl

theorem specFieldGet_append (v : Value) (a b : List String) :
    specFieldGet v (a ++ b) =
      match specFieldGet v a with
      | some w => specFieldGet w b
      | none => none := by
  have h := getSegs_append v a b
  simp only [getSegs_eq_spec] at h
  exact h

end MidnightService

theorem objLookup_objSet_self (kvs : List (String × Value)) (k : String)
    (v : Value) : objLookup (objSet kvs k v) k = some v := by
  induction kvs with
  | nil => simp [objSet, objLookup]
  | cons kv rest ih =>
    obtain ⟨k', w⟩ := kv
    by_cases h : k' = k
    · subst h; simp [objSet, objLookup]
    · simp [objSet, objLookup, h, ih]

theorem objLookup_objSet_other (kvs : List (String × Value)) (k : String)
    (v : Value) (k' : String) (h : k' ≠ k) :
    objLookup (objSet kvs k v) k' = objLookup kvs k' := by
  induction kvs with
  | nil =>
    simp only [objSet, objLookup]
    rw [if_neg (fun hh : k = k' => h hh.symm)]
  | cons kv rest ih =>
    obtain ⟨k0, w⟩ := kv
    by_cases h0 : k0 = k
    · have hk0 : ¬ k0 = k' := fun hh => h (hh ▸ h0)
      simp only [objSet, if_pos h0, objLookup, if_neg hk0]
    · simp only [objSet, if_neg h0, objLookup]
      by_cases h1 : k0 = k'
      · simp [h1]
      · rw [if_neg h1, if_neg h1]; exact ih

theorem objSet_self (kvs : List (String × Value)) (k : String) (c : Value)
    (h : objLookup kvs k = some c) : objSet kvs k c = kvs := by
  induction kvs with
  | nil => simp [objLookup] at h
  | cons kv rest ih =>
    obtain ⟨k0, w⟩ := kv
    by_cases h0 : k0 = k
    · subst h0
      have hw : w = c := by simpa [objLookup] using h
      subst hw
      simp [objSet]
    · have h' : objLookup rest k = some c := by simpa [objLookup, h0] using h
      simp [objSet, h0, ih h']

theorem specFieldGet_cons_obj (kvs : List (String × Value)) (k : String)
    (rest : List String) :
    specFieldGet (.vobj kvs) (k :: rest) =
      match objLookup kvs k with
      | some c => specFieldGet c rest
      | none => none := rfl

theorem specFieldGet_cons_inv (w : Value) (k : String) (rest : List String)
    (v : Value) (h : specFieldGet w (k :: rest) = some v) :
    ∃ kvs c, w = .vobj kvs ∧ objLookup kvs k = some c ∧
      specFieldGet c rest = some v := by
  cases w with
  | vobj kvs =>
    rw [specFieldGet_cons_obj] at h
    cases hl : objLookup kvs k with
    | none => rw [hl] at h; exact absurd h (by simp)
    | some c => rw [hl] at h; exact ⟨kvs, c, rfl, hl, h⟩
  | vnull => exact absurd h (by simp [specFieldGet])
  | vbool b => exact absurd h (by simp [specFieldGet])
  | vnum n => exact absurd h (by simp [specFieldGet])
  | vstr s => exact absurd h (by simp [specFieldGet])
  | vlist xs => exact absurd h (by simp [specFieldGet])

theorem specFieldGet_emptyObj (p : List String) (hp : p ≠ []) :
    specFieldGet (.vobj []) p = none := by
  cases p with
  | nil => exact absurd rfl hp
  | cons k rest => simp [specFieldGet_cons_obj, objLookup]

theorem specFieldGet_falsy (c : Value) (hc : truthy c = false) (k : String)
    (rest : List String) : specFieldGet c (k :: rest) = none := by
  cases c with
  | vobj kvs => simp [truthy] at hc
  | vnull => rfl
  | vbool b => rfl
  | vnum n => rfl
  | vstr s => rfl
  | vlist xs => rfl

namespace MidnightService

theorem setSegs_nil (proj v : Value) : setSegs proj [] v = none := by
  cases proj <;> rfl

theorem setSegs_nonobj (proj : Value) (segs : List String) (v : Value)
    (h : ∀ kvs, proj ≠ .vobj kvs) : setSegs proj segs v = none := by
  cases proj with
  | vobj kvs => exact absurd rfl (h kvs)
  | vnull => cases segs with
    | nil => rfl
    | cons a b => cases b <;> rfl
  | vbool b => cases segs with
    | nil => rfl
    | cons x y => cases y <;> rfl
  | vnum n => cases segs with
    | nil => rfl
    | cons x y => cases y <;> rfl
  | vstr s => cases segs with
    | nil => rfl
    | cons x y => cases y <;> rfl
  | vlist xs => cases segs with
    | nil => rfl
    | cons x y => cases y <;> rfl

theorem setSegs_single (kvs : List (String × Value)) (k : String) (v : Value) :
    setSegs (.vobj kvs) [k] v = some (.vobj (objSet kvs k v)) := rfl

theorem setSegs_cons2 (kvs : List (String × Value)) (k k2 : String)
    (rest : List String) (v : Value) :
    setSegs (.vobj kvs) (k :: k2 :: rest) v =
      match setSegs (childFor kvs k) (k2 :: rest) v with
      | some child2 => some (.vobj (objSet kvs k child2))
      | none => none := rfl

theorem setSegs_root_obj (kvs : List (String × Value)) (segs : List String)
    (v proj' : Value) (h : setSegs (.vobj kvs) segs v = some proj') :
    ∃ kvs', proj' = .vobj kvs' := by
  cases segs with
  | nil => rw [setSegs_nil] at h; exact absurd h (by simp)
  | cons k rest =>
    cases rest with
    | nil =>
      rw [setSegs_single] at h
      exact ⟨objSet kvs k v, by injection h with h; exact h.symm⟩
    | cons k2 rs =>
      rw [setSegs_cons2] at h
      cases hin : setSegs (childFor kvs k) (k2 :: rs) v with
      | none => rw [hin] at h; exact absurd h (by simp)
      | some child2 =>
        rw [hin] at h
        exact ⟨objSet kvs k child2, by injection h with h; exact h.symm⟩

theorem setSegs_self (segs : List String) (w v : Value)
    (hne : segs ≠ []) (h : specFieldGet w segs = some v) :
    setSegs w segs v = some w := by
  induction segs generalizing w with
  | nil => exact absurd rfl hne
  | cons k rest ih =>
    obtain ⟨kvs, c, rfl, hl, hrest⟩ := specFieldGet_cons_inv w k rest v h
    cases rest with
    | nil =>
      rw [specFieldGet_nil] at hrest
      injection hrest with hrest
      subst hrest
      rw [setSegs_single, objSet_self kvs k c hl]
    | cons k2 rs =>
      obtain ⟨kvs2, c2, hc, _, _⟩ := specFieldGet_cons_inv c k2 rs v hrest
      have hchild : childFor kvs k = c := by
        rw [childFor, hl, hc]
        simp [truthy]
      rw [setSegs_cons2, hchild, ih c (by simp) hrest]
      show some (Value.vobj (objSet kvs k c)) = some (Value.vobj kvs)
      rw [objSet_self kvs k c hl]

theorem setSegs_at (segs : List String) (proj v proj' : Value)
    (h : setSegs proj segs v = some proj') :
    specFieldGet proj' segs = some v := by
  induction segs generalizing proj proj' with
  | nil => rw [setSegs_nil] at h; exact absurd h (by simp)
  | cons k rest ih =>
    cases proj with
    | vobj kvs =>
      cases rest with
      | nil =>
        rw [setSegs_single] at h
        injection h with h
        subst h
        rw [specFieldGet_cons_obj, objLookup_objSet_self]
        exact specFieldGet_nil v
      | cons k2 rs =>
        rw [setSegs_cons2] at h
        cases hin : setSegs (childFor kvs k) (k2 :: rs) v with
        | none => rw [hin] at h; exact absurd h (by simp)
        | some child2 =>
          rw [hin] at h
          injection h with h
          subst h
          rw [specFieldGet_cons_obj, objLookup_objSet_self]
          exact ih _ _ hin
    | vnull =>
      rw [setSegs_nonobj _ _ _ (by rintro kvs ⟨⟩)] at h
      exact absurd h (by simp)
    | vbool b =>
      rw [setSegs_nonobj _ _ _ (by rintro kvs ⟨⟩)] at h
      exact absurd h (by simp)
    | vnum n =>
      rw [setSegs_nonobj _ _ _ (by rintro kvs ⟨⟩)] at h
      exact absurd h (by simp)
    | vstr s =>
      rw [setSegs_nonobj _ _ _ (by rintro kvs ⟨⟩)] at h
      exact absurd h (by simp)
    | vlist xs =>
      rw [setSegs_nonobj _ _ _ (by rintro kvs ⟨⟩)] at h
      exact absurd h (by simp)

theorem setSegs_obj_of_some (proj : Value) (segs : List String) (v proj' : Value)
    (h : setSegs proj segs v = some proj') : ∃ kvs, proj = .vobj kvs := by
  cases proj with
  | vobj kvs => exact ⟨kvs, rfl⟩
  | vnull => rw [setSegs_nonobj _ _ _ (by rintro kvs ⟨⟩)] at h
             exact absurd h (by simp)
  | vbool b => rw [setSegs_nonobj _ _ _ (by rintro kvs ⟨⟩)] at h
               exact absurd h (by simp)
  | vnum n => rw [setSegs_nonobj _ _ _ (by rintro kvs ⟨⟩)] at h
              exact absurd h (by simp)
  | vstr s => rw [setSegs_nonobj _ _ _ (by rintro kvs ⟨⟩)] at h
              exact absurd h (by simp)
  | vlist xs => rw [setSegs_nonobj _ _ _ (by rintro kvs ⟨⟩)] at h
                exact absurd h (by simp)

theorem setSegs_cons_inv (kvs : List (String × Value)) (k k2 : String)
    (rs : List String) (v proj' : Value)
    (h : setSegs (.vobj kvs) (k :: k2 :: rs) v = some proj') :
    ∃ child2, setSegs (childFor kvs k) (k2 :: rs) v = some child2 ∧
      proj' = .vobj (objSet kvs k child2) := by
  rw [setSegs_cons2] at h
  cases hin : setSegs (childFor kvs k) (k2 :: rs) v with
  | none => rw [hin] at h; exact absurd h (by simp)
  | some child2 =>
    rw [hin] at h
    exact ⟨child2, rfl, by injection h with h; exact h.symm⟩

theorem setSegs_frame_divergent (segs : List String) (proj v proj' : Value)
    (h : setSegs proj segs v = some proj') (p : List String)
    (h1 : ¬ PrefixOf segs p) (h2 : ¬ PrefixOf p segs) :
    specFieldGet proj' p = specFieldGet proj p := by
  induction segs generalizing proj proj' p with
  | nil => rw [setSegs_nil] at h; exact absurd h (by simp)
  | cons k rest ih =>
    obtain ⟨kvs, rfl⟩ := setSegs_obj_of_some proj (k :: rest) v proj' h
    cases p with
    | nil => exact absurd (prefixOf_nil (k :: rest)) h2
    | cons k' p' =>
      by_cases hk : k' = k
      · subst hk
        have h1' : ¬ PrefixOf rest p' :=
          fun hp => h1 ((prefixOf_cons_iff k' k' rest p').mpr ⟨rfl, hp⟩)
        have h2' : ¬ PrefixOf p' rest :=
          fun hp => h2 ((prefixOf_cons_iff k' k' p' rest).mpr ⟨rfl, hp⟩)
        have hp'ne : p' ≠ [] := by
          rintro rfl
          exact h2' (prefixOf_nil rest)
        cases rest with
        | nil =>
          -- segs = [k']: p' would have to be an extension, but then
          -- PrefixOf [k'] (k' :: p') holds
          exact absurd ((prefixOf_cons_iff k' k' [] p').mpr
            ⟨rfl, prefixOf_nil p'⟩) h1
        | cons k2 rs =>
          obtain ⟨child2, hin, rfl⟩ :=
            setSegs_cons_inv kvs k' k2 rs v proj' h
          have hrec := ih (childFor kvs k') child2 hin p' h1' h2'
          rw [specFieldGet_cons_obj, objLookup_objSet_self,
            specFieldGet_cons_obj]
          show specFieldGet child2 p' =
            match objLookup kvs k' with
            | some c => specFieldGet c p'
            | none => none
          rw [hrec]
          cases hl : objLookup kvs k' with
          | none =>
            have hcf : childFor kvs k' = Value.vobj [] := by
              simp [childFor, hl]
            rw [hcf]
            cases p' with
            | nil => exact absurd rfl hp'ne
            | cons q qs =>
              show specFieldGet (Value.vobj []) (q :: qs) = none
              rw [specFieldGet_emptyObj (q :: qs) (by simp)]
          | some c =>
            cases htr : truthy c with
            | true =>
              have hcf : childFor kvs k' = c := by
                simp [childFor, hl, htr]
              rw [hcf]
            | false =>
              have hcf : childFor kvs k' = Value.vobj [] := by
                simp [childFor, hl, htr]
              rw [hcf]
              cases p' with
              | nil => exact absurd rfl hp'ne
              | cons q qs =>
                show specFieldGet (Value.vobj []) (q :: qs) =
                  specFieldGet c (q :: qs)
                rw [specFieldGet_emptyObj (q :: qs) (by simp),
                  specFieldGet_falsy c htr q qs]
      · obtain ⟨child2, hstruct⟩ :
            ∃ ch, proj' = .vobj (objSet kvs k ch) := by
          cases rest with
          | nil =>
            rw [setSegs_single] at h
            exact ⟨v, by injection h with h; exact h.symm⟩
          | cons k2 rs =>
            obtain ⟨child2, _, hpe⟩ := setSegs_cons_inv kvs k k2 rs v proj' h
            exact ⟨child2, hpe⟩
        subst hstruct
        rw [specFieldGet_cons_obj, specFieldGet_cons_obj,
          objLookup_objSet_other kvs k _ k' hk]

theorem setSegs_node_obj (segs : List String) (proj v proj' : Value)
    (h : setSegs proj segs v = some proj') (p : List String)
    (hp : PrefixOf p segs) (hne : p ≠ segs) :
    ∃ kvs, specFieldGet proj' p = some (.vobj kvs) := by
  induction segs generalizing proj proj' p with
  | nil => rw [setSegs_nil] at h; exact absurd h (by simp)
  | cons k rest ih =>
    obtain ⟨kvs, rfl⟩ := setSegs_obj_of_some proj (k :: rest) v proj' h
    obtain ⟨kvs', hobj⟩ := setSegs_root_obj kvs (k :: rest) v proj' h
    cases p with
    | nil => exact ⟨kvs', by rw [specFieldGet_nil, hobj]⟩
    | cons k' p' =>
      obtain ⟨hk, hp'⟩ := (prefixOf_cons_iff k' k p' rest).mp hp
      subst hk
      have hne' : p' ≠ rest := fun hh => hne (by rw [hh])
      cases rest with
      | nil =>
        obtain ⟨t, ht⟩ := hp'
        cases p' with
        | nil => exact absurd rfl hne'
        | cons a b => exact absurd ht (by simp)
      | cons k2 rs =>
        obtain ⟨child2, hin, rfl⟩ := setSegs_cons_inv kvs k' k2 rs v proj' h
        rw [specFieldGet_cons_obj, objLookup_objSet_self]
        exact ih (childFor kvs k') child2 hin p' hp' hne'

theorem setSegs_frame_under (p : List String) :
    ∀ (segs : List String) (proj v proj' w : Value),
    setSegs proj segs v = some proj' → PrefixOf p segs → p ≠ segs →
    specFieldGet proj p = some w →
    specFieldGet w (segs.drop p.length) = some v →
    specFieldGet proj' p = some w := by
  induction p with
  | nil =>
    intro segs proj v proj' w h hp hne hw hv
    rw [specFieldGet_nil] at hw
    injection hw with hw
    subst hw
    simp only [List.length_nil, List.drop_zero] at hv
    have hself := setSegs_self segs proj v (fun hh => hne hh.symm) hv
    rw [hself] at h
    injection h with h
    subst h
    rw [specFieldGet_nil]
  | cons k p' ih =>
    intro segs proj v proj' w h hp hne hw hv
    cases segs with
    | nil =>
      obtain ⟨t, ht⟩ := hp
      exact absurd ht (by simp)
    | cons k0 segs' =>
      obtain ⟨hk, hp'⟩ := (prefixOf_cons_iff k k0 p' segs').mp hp
      subst hk
      have hne' : p' ≠ segs' := fun hh => hne (by rw [hh])
      obtain ⟨kvs, c, rfl, hl, hcw⟩ := specFieldGet_cons_inv proj k p' w hw
      have hsegs' : segs' ≠ [] := by
        rintro rfl
        obtain ⟨t, ht⟩ := hp'
        simp at ht
        exact hne' ht.1
      cases segs' with
      | nil => exact absurd rfl hsegs'
      | cons k2 rs =>
        obtain ⟨child2, hin, rfl⟩ := setSegs_cons_inv kvs k k2 rs v proj' h
        have hdrop : ((k :: k2 :: rs).drop (k :: p').length) =
            ((k2 :: rs).drop p'.length) := by simp
        rw [hdrop] at hv
        cases p' with
        | nil =>
          rw [specFieldGet_nil] at hcw
          injection hcw with hcw
          subst hcw
          -- the child already holds the value to be written; the inner set
          -- is the identity
          have hchild : childFor kvs k = c := by
            obtain ⟨kvs2, c2, hc, _, _⟩ :=
              specFieldGet_cons_inv c k2 rs v hv
            rw [childFor, hl, hc]
            simp [truthy]
          rw [hchild] at hin
          rw [setSegs_self (k2 :: rs) c v (by simp) hv] at hin
          injection hin with hin
          subst hin
          rw [specFieldGet_cons_obj, objSet_self kvs k c hl, hl]
          show specFieldGet c [] = some c
          exact specFieldGet_nil c
        | cons q qs =>
          obtain ⟨kvsc, cc, hc, _, _⟩ :=
            specFieldGet_cons_inv c q qs w hcw
          have hchild : childFor kvs k = c := by
            rw [childFor, hl, hc]
            simp [truthy]
          rw [hchild] at hin
          have := ih (k2 :: rs) c v child2 w hin hp' hne' hcw hv
          rw [specFieldGet_cons_obj, objLookup_objSet_self]
          exact this

theorem setSegs_total (segs : List String) :
    ∀ (kvs : List (String × Value)) (v : Value), segs ≠ [] →
    (∀ q w, PrefixOf q segs → q ≠ segs → q ≠ [] →
       specFieldGet (.vobj kvs) q = some w → ∃ kvs', w = .vobj kvs') →
    (setSegs (.vobj kvs) segs v).isSome := by
  induction segs with
  | nil => intro kvs v hne; exact absurd rfl hne
  | cons k rest ih =>
    intro kvs v _ hnodes
    cases rest with
    | nil => rw [setSegs_single]; rfl
    | cons k2 rs =>
      have hinner : (setSegs (childFor kvs k) (k2 :: rs) v).isSome := by
        cases hl : objLookup kvs k with
        | none =>
          have hempty : childFor kvs k = .vobj [] := by
            simp [childFor, hl]
          rw [hempty]
          refine ih [] v (by simp) ?_
          intro q w _ _ hqne hq
          cases q with
          | nil => exact absurd rfl hqne
          | cons a b =>
            rw [specFieldGet_emptyObj (a :: b) (by simp)] at hq
            exact absurd hq (by simp)
        | some c =>
          cases htr : truthy c with
          | false =>
            have hempty : childFor kvs k = .vobj [] := by
              simp [childFor, hl, htr]
            rw [hempty]
            refine ih [] v (by simp) ?_
            intro q w _ _ hqne hq
            cases q with
            | nil => exact absurd rfl hqne
            | cons a b =>
              rw [specFieldGet_emptyObj (a :: b) (by simp)] at hq
              exact absurd hq (by simp)
          | true =>
            have hcq : specFieldGet (.vobj kvs) [k] = some c := by
              rw [specFieldGet_cons_obj, hl]
              exact specFieldGet_nil c
            obtain ⟨kvsc, rfl⟩ := hnodes [k] c
              ((prefixOf_cons_iff k k [] (k2 :: rs)).mpr
                ⟨rfl, prefixOf_nil _⟩)
              (by simp) (by simp) hcq
            have hchild : childFor kvs k = .vobj kvsc := by
              simp [childFor, hl, truthy]
            rw [hchild]
            refine ih kvsc v (by simp) ?_
            intro q w hq hqne hqnil hqget
            refine hnodes (k :: q) w
              ((prefixOf_cons_iff k k q (k2 :: rs)).mpr ⟨rfl, hq⟩)
              (by simp [hqne]) (by simp) ?_
            rw [specFieldGet_cons_obj, hl]
            exact hqget
      cases hin : setSegs (childFor kvs k) (k2 :: rs) v with
      | none => rw [hin] at hinner; exact absurd hinner (by simp)
      | some child2 => rw [setSegs_cons2, hin]; rfl

/-- Every node present in the projection accumulator either carries the same
value the full record carries at that path, or is a (possibly partial)
intermediate object. -/
def InvNodes (R proj : Value) : Prop :=
  ∀ p w, specFieldGet proj p = some w →
    specFieldGet R p = some w ∨ ∃ kvs, w = Value.vobj kvs

/-- Every already-processed approved path whose value is present in the full
record is present in the accumulator with the identical value. -/
def InvCovered (R proj : Value) (processed : List String) : Prop :=
  ∀ s ∈ processed, ∀ w, specFieldGet R (splitPath s) = some w →
    specFieldGet proj (splitPath s) = some w

/-- Every nonempty path present in the accumulator runs along some processed
approved path. -/
def InvWithin (proj : Value) (processed : List String) : Prop :=
  ∀ p, p ≠ [] → (specFieldGet proj p).isSome →
    ∃ s ∈ processed, PrefixOf (splitPath s) p ∨ PrefixOf p (splitPath s)

theorem splitPathChars_ne_nil (cs acc : List Char) :
    splitPathChars cs acc ≠ [] := by
  induction cs generalizing acc with
  | nil => simp [splitPathChars]
  | cons c rest ih =>
    by_cases h : c = '.'
    · simp [splitPathChars, h]
    · simp only [splitPathChars, if_neg h]
      exact ih (c :: acc)

theorem splitPath_ne_nil (s : String) : splitPath s ≠ [] :=
  splitPathChars_ne_nil s.data []

theorem setSegs_step_isSome (R proj : Value) (s0 : String) (v : Value)
    (hroot : ∃ kvs, proj = .vobj kvs) (hA : InvNodes R proj)
    (hget : specFieldGet R (splitPath s0) = some v) :
    (setSegs proj (splitPath s0) v).isSome := by
  obtain ⟨kvs, rfl⟩ := hroot
  refine setSegs_total (splitPath s0) kvs v (splitPath_ne_nil s0) ?_
  intro q w hq hqne _ hqget
  cases hA q w hqget with
  | inr hobj => exact hobj
  | inl hR =>
    by_contra hnotobj
    push_neg at hnotobj
    have hdecomp := eq_append_drop_of_prefixOf q (splitPath s0) hq
    have hdropne : (splitPath s0).drop q.length ≠ [] := by
      intro hd
      rw [hd, List.append_nil] at hdecomp
      exact hqne hdecomp.symm
    rw [hdecomp, specFieldGet_append, hR] at hget
    cases hd : (splitPath s0).drop q.length with
    | nil => exact hdropne hd
    | cons a b =>
      rw [hd] at hget
      cases w with
      | vobj kvsw => exact hnotobj kvsw rfl
      | vnull => exact absurd hget (by simp [specFieldGet])
      | vbool bb => exact absurd hget (by simp [specFieldGet])
      | vnum n => exact absurd hget (by simp [specFieldGet])
      | vstr str => exact absurd hget (by simp [specFieldGet])
      | vlist xs => exact absurd hget (by simp [specFieldGet])

theorem filter_step_inv (R proj proj' : Value) (processed : List String)
    (s0 : String) (v : Value)
    (hA : InvNodes R proj) (hB : InvCovered R proj processed)
    (hC : InvWithin proj processed)
    (hget : specFieldGet R (splitPath s0) = some v)
    (hset : setSegs proj (splitPath s0) v = some proj') :
    (∃ kvs, proj' = .vobj kvs) ∧ InvNodes R proj' ∧
      InvCovered R proj' (processed ++ [s0]) ∧
      InvWithin proj' (processed ++ [s0]) := by
  obtain ⟨kvs0, rfl⟩ := setSegs_obj_of_some proj (splitPath s0) v proj' hset
  refine ⟨setSegs_root_obj kvs0 (splitPath s0) v proj' hset, ?_, ?_, ?_⟩
  · -- InvNodes
    intro p w hw
    by_cases hps : PrefixOf (splitPath s0) p
    · left
      have hdecomp := eq_append_drop_of_prefixOf (splitPath s0) p hps
      rw [hdecomp, specFieldGet_append, setSegs_at (splitPath s0) _ v proj' hset]
        at hw
      rw [hdecomp, specFieldGet_append, hget]
      exact hw
    · by_cases hsp : PrefixOf p (splitPath s0)
      · have hne : p ≠ splitPath s0 := by
          rintro rfl
          exact hps (prefixOf_refl _)
        obtain ⟨kvsp, hwp⟩ :=
          setSegs_node_obj (splitPath s0) _ v proj' hset p hsp hne
        rw [hw] at hwp
        injection hwp with hwp
        exact Or.inr ⟨kvsp, hwp⟩
      · rw [setSegs_frame_divergent (splitPath s0) _ v proj' hset p hps hsp]
          at hw
        exact hA p w hw
  · -- InvCovered
    intro s hs w hRw
    rcases List.mem_append.mp hs with hs | hs
    · have hold := hB s hs w hRw
      by_cases hps : PrefixOf (splitPath s0) (splitPath s)
      · have hdecomp :=
          eq_append_drop_of_prefixOf (splitPath s0) (splitPath s) hps
        rw [hdecomp, specFieldGet_append, hget] at hRw
        rw [hdecomp, specFieldGet_append,
          setSegs_at (splitPath s0) _ v proj' hset]
        exact hRw
      · by_cases hsp : PrefixOf (splitPath s) (splitPath s0)
        · have hne : splitPath s ≠ splitPath s0 := by
            intro hh
            exact hps (hh ▸ prefixOf_refl (splitPath s))
          have hdecomp :=
            eq_append_drop_of_prefixOf (splitPath s) (splitPath s0) hsp
          have hvw : specFieldGet w
              ((splitPath s0).drop (splitPath s).length) = some v := by
            rw [hdecomp, specFieldGet_append, hRw] at hget
            exact hget
          exact setSegs_frame_under (splitPath s) (splitPath s0) _ v proj' w
            hset hsp hne hold hvw
        · rw [setSegs_frame_divergent (splitPath s0) _ v proj' hset
            (splitPath s) hps hsp]
          exact hold
    · have hs0 : s = s0 := by simpa using hs
      subst hs0
      rw [hget] at hRw
      injection hRw with hRw
      subst hRw
      exact setSegs_at (splitPath s) _ _ proj' hset
  · -- InvWithin
    intro p hpne hp
    by_cases hps : PrefixOf (splitPath s0) p
    · exact ⟨s0, List.mem_append.mpr (Or.inr (by simp)), Or.inl hps⟩
    · by_cases hsp : PrefixOf p (splitPath s0)
      · exact ⟨s0, List.mem_append.mpr (Or.inr (by simp)), Or.inr hsp⟩
      · rw [setSegs_frame_divergent (splitPath s0) _ v proj' hset p hps hsp]
          at hp
        obtain ⟨s, hsmem, hrel⟩ := hC p hpne hp
        exact ⟨s, List.mem_append.mpr (Or.inl hsmem), hrel⟩

theorem filter_fold (R : Value) (S : List String) :
    ∀ (proj : Value) (processed : List String),
    (∃ kvs, proj = .vobj kvs) → InvNodes R proj →
    InvCovered R proj processed → InvWithin proj processed →
    ∃ P, S.foldl
        (fun acc fieldPath =>
          match acc with
          | some filtered =>
            match getNestedProperty R fieldPath with
            | some value => setNestedProperty filtered fieldPath value
            | none => some filtered
          | none => none)
        (some proj) = some P ∧
      InvNodes R P ∧ InvCovered R P (processed ++ S) ∧
      InvWithin P (processed ++ S) := by
  induction S with
  | nil =>
    intro proj processed hroot hA hB hC
    exact ⟨proj, rfl, hA, by simpa using hB, by simpa using hC⟩
  | cons s0 S' ih =>
    intro proj processed hroot hA hB hC
    have hassoc : processed ++ s0 :: S' = (processed ++ [s0]) ++ S' := by simp
    rw [hassoc]
    cases hget : getNestedProperty R s0 with
    | none =>
      have hgs : specFieldGet R (splitPath s0) = none := by
        rw [← getSegs_eq_spec]; exact hget
      have hB' : InvCovered R proj (processed ++ [s0]) := by
        intro s hs w hw
        rcases List.mem_append.mp hs with hs | hs
        · exact hB s hs w hw
        · have : s = s0 := by simpa using hs
          subst this
          rw [hgs] at hw
          exact absurd hw (by simp)
      have hC' : InvWithin proj (processed ++ [s0]) := by
        intro p hpne hp
        obtain ⟨s, hsmem, hrel⟩ := hC p hpne hp
        exact ⟨s, List.mem_append.mpr (Or.inl hsmem), hrel⟩
      have hstep : (List.foldl
          (fun acc fieldPath =>
            match acc with
            | some filtered =>
              match getNestedProperty R fieldPath with
              | some value => setNestedProperty filtered fieldPath value
              | none => some filtered
            | none => none)
          (some proj) (s0 :: S')) = (List.foldl
          (fun acc fieldPath =>
            match acc with
            | some filtered =>
              match getNestedProperty R fieldPath with
              | some value => setNestedProperty filtered fieldPath value
              | none => some filtered
            | none => none)
          (some proj) S') := by
        simp only [List.foldl_cons, hget]
      rw [hstep]
      exact ih proj (processed ++ [s0]) hroot hA hB' hC'
    | some v =>
      have hgs : specFieldGet R (splitPath s0) = some v := by
        rw [← getSegs_eq_spec]; exact hget
      have hsome := setSegs_step_isSome R proj s0 v hroot hA hgs
      cases hset : setSegs proj (splitPath s0) v with
      | none => rw [hset] at hsome; exact absurd hsome (by simp)
      | some proj' =>
        obtain ⟨hroot', hA', hB', hC'⟩ :=
          filter_step_inv R proj proj' processed s0 v hA hB hC hgs hset
        have hstep : (List.foldl
            (fun acc fieldPath =>
              match acc with
              | some filtered =>
                match getNestedProperty R fieldPath with
                | some value => setNestedProperty filtered fieldPath value
                | none => some filtered
              | none => none)
            (some proj) (s0 :: S')) = (List.foldl
            (fun acc fieldPath =>
              match acc with
              | some filtered =>
                match getNestedProperty R fieldPath with
                | some value => setNestedProperty filtered fieldPath value
                | none => some filtered
              | none => none)
            (some proj') S') := by
          simp only [List.foldl_cons, hget]
          rw [show setNestedProperty proj s0 v = some proj' from hset]
        rw [hstep]
        exact ih proj' (processed ++ [s0]) hroot' hA' hB' hC'

end MidnightService

/-! ## Claim theorems: the field-path codec and the record projector -/

/-- C8: `get` is total and absence is not an error: for every record and every
dotted path, `getNestedProperty` never throws (it is a total function), and it
returns exactly what the spec's walk prescribes — absent whenever any
intermediate segment is missing or the intermediate value is not a mapping, or
the final key is missing, and otherwise the stored value (`specFieldGet`). -/
theorem c8_get_total_and_absent_is_not_an_error (obj : Value) (path : String) :
    MidnightService.getNestedProperty obj path =
      specFieldGet obj (splitPath path) :=
  MidnightService.getSegs_eq_spec (splitPath path) obj

theorem invNodes_empty (R : Value) : MidnightService.InvNodes R (.vobj []) := by
  intro p w hw
  cases p with
  | nil =>
    rw [MidnightService.specFieldGet_nil] at hw
    injection hw with hw
    exact Or.inr ⟨[], hw.symm⟩
  | cons k rest =>
    rw [specFieldGet_emptyObj (k :: rest) (by simp)] at hw
    exact absurd hw (by simp)

/-- C1: Projection correctness.  If the filtering step of
`getApprovedFields` produces a projection `P` from record `R` and field set
`S`, then (1) every nonempty path present in `P` runs along some approved path
of `S` (so `P` contains no keys besides those reachable via an approved path),
and (2) every path of `S` whose value is present in `R` is present in `P` with
the identical value. -/
theorem c1_projection_correctness (R : Value) (S : List String) (P : Value)
    (h : MidnightService.getApprovedFields R S = some P) :
    (∀ p, p ≠ [] → (MidnightService.getSegs P p).isSome →
       ∃ s ∈ S, PrefixOf (splitPath s) p ∨ PrefixOf p (splitPath s)) ∧
    (∀ s ∈ S, ∀ w, MidnightService.getNestedProperty R s = some w →
       MidnightService.getNestedProperty P s = some w) := by
  obtain ⟨P', hfold, hA, hB, hC⟩ :=
    MidnightService.filter_fold R S (Value.vobj []) [] ⟨[], rfl⟩
      (invNodes_empty R)
      (by intro s hs; simp at hs)
      (by
        intro p hpne hp
        rw [specFieldGet_emptyObj p hpne] at hp
        exact absurd hp (by simp))
  have hPP : P' = P := by
    have hh : MidnightService.getApprovedFields R S = some P' := hfold
    rw [h] at hh
    injection hh with hh
    exact hh.symm
  subst hPP
  constructor
  · intro p hpne hp
    rw [MidnightService.getSegs_eq_spec] at hp
    obtain ⟨s, hsmem, hrel⟩ := hC p hpne hp
    exact ⟨s, by simpa using hsmem, hrel⟩
  · intro s hs w hw
    rw [MidnightService.getNestedProperty, MidnightService.getSegs_eq_spec]
      at hw ⊢
    exact hB s (by simpa using hs) w hw

/-- Witness for C1 at the spec's concrete scenario record and field set. -/
theorem c1_projection_correctness_witness :
    MidnightService.getApprovedFields
        (Value.vobj
          [("vitals", Value.vobj
              [("heartRate", Value.vnum 72),
               ("temperature", Value.vstr "98.6")]),
           ("patientInfo", Value.vobj [("bloodType", Value.vstr "A+")])])
        ["vitals.heartRate", "patientInfo.bloodType"] =
      some (Value.vobj
        [("vitals", Value.vobj [("heartRate", Value.vnum 72)]),
         ("patientInfo", Value.vobj [("bloodType", Value.vstr "A+")])]) ∧
    ((∀ p, p ≠ [] →
        (MidnightService.getSegs
          (Value.vobj
            [("vitals", Value.vobj [("heartRate", Value.vnum 72)]),
             ("patientInfo", Value.vobj [("bloodType", Value.vstr "A+")])])
          p).isSome →
        ∃ s ∈ ["vitals.heartRate", "patientInfo.bloodType"],
          PrefixOf (splitPath s) p ∨ PrefixOf p (splitPath s)) ∧
     (∀ s ∈ ["vitals.heartRate", "patientInfo.bloodType"], ∀ w,
        MidnightService.getNestedProperty
          (Value.vobj
            [("vitals", Value.vobj
                [("heartRate", Value.vnum 72),
                 ("temperature", Value.vstr "98.6")]),
             ("patientInfo", Value.vobj [("bloodType", Value.vstr "A+")])])
          s = some w →
        MidnightService.getNestedProperty
          (Value.vobj
            [("vitals", Value.vobj [("heartRate", Value.vnum 72)]),
             ("patientInfo", Value.vobj [("bloodType", Value.vstr "A+")])])
          s = some w)) :=
  ⟨rfl, c1_projection_correctness _ _ _ rfl⟩

/-! ## Claim theorems: the field-path round-trip law -/

theorem splitPathChars_no_dot (cs : List Char) :
    ∀ acc : List Char, '.' ∉ cs →
    splitPathChars cs acc = [String.mk (acc.reverse ++ cs)] := by
  induction cs with
  | nil => intro acc _; simp [splitPathChars]
  | cons c rest ih =>
    intro acc h
    have hc : c ≠ '.' := fun hh => h (by simp [hh])
    have hrest : '.' ∉ rest := fun hh => h (by simp [hh])
    simp only [splitPathChars, if_neg hc]
    rw [ih (c :: acc) hrest]
    simp

theorem splitPathChars_dot_split (xs : List Char) :
    ∀ (ys acc : List Char), '.' ∉ xs →
    splitPathChars (xs ++ '.' :: ys) acc =
      String.mk (acc.reverse ++ xs) :: splitPathChars ys [] := by
  induction xs with
  | nil => intro ys acc _; simp [splitPathChars]
  | cons c rest ih =>
    intro ys acc h
    have hc : c ≠ '.' := fun hh => h (by simp [hh])
    have hrest : '.' ∉ rest := fun hh => h (by simp [hh])
    simp only [List.cons_append, splitPathChars, if_neg hc]
    show splitPathChars (rest ++ '.' :: ys) (c :: acc) = _
    rw [ih ys (c :: acc) hrest]
    simp

theorem dottedString_cons2 (s r : String) (rs : List String) :
    dottedString (s :: r :: rs) = s ++ "." ++ dottedString (r :: rs) := rfl

theorem splitPath_dottedString (p : List String) (hne : p ≠ [])
    (hseg : ∀ s ∈ p, '.' ∉ s.data) :
    splitPath (dottedString p) = p := by
  induction p with
  | nil => exact absurd rfl hne
  | cons s rest ih =>
    cases rest with
    | nil =>
      show splitPathChars s.data [] = [s]
      rw [splitPathChars_no_dot s.data [] (hseg s (by simp))]
      simp
    | cons r rs =>
      rw [dottedString_cons2]
      show splitPathChars (s ++ "." ++ dottedString (r :: rs)).data [] = _
      rw [String.data_append, String.data_append]
      have hdot : (".").data = ['.'] := rfl
      rw [hdot, List.append_assoc]
      show splitPathChars (s.data ++ '.' :: (dottedString (r :: rs)).data) [] = _
      rw [splitPathChars_dot_split s.data (dottedString (r :: rs)).data []
        (hseg s (by simp))]
      have := ih (by simp) (fun x hx => hseg x (by simp [hx]))
      rw [show splitPathChars (dottedString (r :: rs)).data [] =
        splitPath (dottedString (r :: rs)) from rfl, this]
      simp

/-- C9 counterexample: the claim quantifies over every nonempty sequence of
nonempty string segments, but a segment containing a dot does not round-trip:
for `p = ["a.b"]` (one nonempty segment), parsing the dotted string formed
from `p` yields `["a", "b"]`, not `p`. -/
theorem c9_roundtrip_counterexample :
    ("a.b" ≠ "" ∧ (["a.b"] : List String) ≠ []) ∧
    parsePath (dottedString ["a.b"]) = .ok ["a", "b"] ∧
    (["a", "b"] : List String) ≠ ["a.b"] := by
  refine ⟨⟨by decide, by simp⟩, ?_, by decide⟩
  rfl

/-- C9 (amended): the round-trip law holds for every FieldPath built from
nonempty, dot-free segments — parsing (splitting on `'.'`, rejecting empty
segments) the dotted string formed from `p` yields exactly `p`; and `parsePath`
fails with `InvalidFieldPath` on every string whose split contains an empty
segment. -/
theorem c9_fieldpath_roundtrip (p : List String) (hne : p ≠ [])
    (hseg : ∀ s ∈ p, s ≠ "" ∧ '.' ∉ s.data) :
    parsePath (dottedString p) = .ok p ∧
    (∀ q : String, "" ∈ splitPath q →
      parsePath q = .error .invalidFieldPath) := by
  constructor
  · have hsplit := splitPath_dottedString p hne (fun s hs => (hseg s hs).2)
    rw [parsePath]
    simp only [hsplit]
    rw [if_neg]
    intro hmem
    exact (hseg "" hmem).1 rfl
  · intro q hq
    rw [parsePath]
    simp only [if_pos hq]

/-- Witness for C9 at the spec's concrete field path
`["vitals", "heartRate"]`. -/
theorem c9_fieldpath_roundtrip_witness :
    ((["vitals", "heartRate"] : List String) ≠ [] ∧
      (∀ s ∈ (["vitals", "heartRate"] : List String),
        s ≠ "" ∧ '.' ∉ s.data)) ∧
    (parsePath (dottedString ["vitals", "heartRate"]) =
        .ok ["vitals", "heartRate"] ∧
      (∀ q : String, "" ∈ splitPath q →
        parsePath q = .error .invalidFieldPath)) :=
  ⟨⟨by simp, by decide⟩,
   c9_fieldpath_roundtrip ["vitals", "heartRate"] (by simp) (by decide)⟩

/-! ## Lemmas: the consent registry -/

theorem isActivePair_true_iff (pw dw : String) (c : ContractRow) :
    isActivePair pw dw c = true ↔
      (c.patientWallet = pw ∧ c.doctorWallet = dw ∧
        c.status = CStatus.active) := by
  simp [isActivePair]

theorem countP_ignores_fields (l : List ContractRow) (cid : Nat)
    (F : List String) (pw dw : String) :
    (l.map (fun c => if c.id = cid then { c with approvedFields := F }
      else c)).countP (isActivePair pw dw) = l.countP (isActivePair pw dw) := by
  rw [List.countP_map]
  refine List.countP_congr ?_
  intro x _
  by_cases h : x.id = cid <;> simp [h, isActivePair]

theorem countP_revoke_le (l : List ContractRow) (cid : Nat) (pw dw : String) :
    (l.map (fun c => if c.id = cid then { c with status := CStatus.revoked }
      else c)).countP (isActivePair pw dw) ≤ l.countP (isActivePair pw dw) := by
  rw [List.countP_map]
  refine List.countP_mono_left ?_
  intro x _ hx
  by_cases h : x.id = cid
  · simp [h, isActivePair, Function.comp] at hx
  · simpa [h, Function.comp] using hx

theorem find?_map_pred {α : Type} (l : List α) (g : α → α) (p : α → Bool)
    (h : ∀ x, p (g x) = p x) :
    (l.map g).find? p = (l.find? p).map g := by
  induction l with
  | nil => rfl
  | cons a rest ih =>
    simp only [List.map_cons, List.find?_cons]
    cases hp : p a with
    | true => rw [h a, hp]; rfl
    | false => rw [h a, hp]; exact ih

/-! ## Claim theorems: the consent registry -/

/-- C10: the field-access check is fail-closed — whenever no grant with
status Active exists for the (patient, doctor) pair, `checkFieldAccess`
returns false (it never raises); in particular a revoked or merely pending
grant never authorizes any field. -/
theorem c10_checkFieldAccess_fail_closed (st : RegistryState)
    (pw dw field : String)
    (h : ∀ c ∈ st.contracts,
      ¬ (c.patientWallet = pw ∧ c.doctorWallet = dw ∧
         c.status = CStatus.active)) :
    SmartContractService.checkFieldAccess st pw dw field = false := by
  have hnone : st.contracts.find? (isActivePair pw dw) = none := by
    rw [List.find?_eq_none]
    intro x hx hpx
    exact h x hx ((isActivePair_true_iff pw dw x).mp hpx)
  simp [SmartContractService.checkFieldAccess, hnone]

/-- Witness for C10: a state whose only grant for the pair is revoked (with
the queried field still in its stored `approved_fields`) yields no access. -/
theorem c10_checkFieldAccess_fail_closed_witness :
    (∀ c ∈ (RegistryState.mk [] [] [⟨0, "pw", "dw", "contract_0",
        ["vitals.heartRate"], CStatus.revoked⟩] [] [] 1 1 1).contracts,
      ¬ (c.patientWallet = "pw" ∧ c.doctorWallet = "dw" ∧
         c.status = CStatus.active)) ∧
    SmartContractService.checkFieldAccess
      (RegistryState.mk [] [] [⟨0, "pw", "dw", "contract_0",
        ["vitals.heartRate"], CStatus.revoked⟩] [] [] 1 1 1)
      "pw" "dw" "vitals.heartRate" = false :=
  ⟨by decide, c10_checkFieldAccess_fail_closed _ "pw" "dw" "vitals.heartRate"
    (by decide)⟩

theorem createContract_preserves (pw0 dw0 : String) (F : List String)
    (st : RegistryState)
    (hnone : SmartContractService.findByWallets st pw0 dw0 = none)
    (hInv : ∀ pw dw, activeGrantCount st pw dw ≤ 1) :
    ∀ pw dw, activeGrantCount
      (SmartContractService.createContract pw0 dw0 F st).2 pw dw ≤ 1 := by
  intro pw dw
  have hrow : (SmartContractService.createContract pw0 dw0 F st).2.contracts =
      st.contracts ++ [⟨st.nextContractId, pw0, dw0, mkAddr st.nextAddrSeed,
        F, .active⟩] := rfl
  show (SmartContractService.createContract pw0 dw0 F st).2.contracts.countP
    (isActivePair pw dw) ≤ 1
  rw [hrow, List.countP_append]
  cases hr : isActivePair pw dw
      ⟨st.nextContractId, pw0, dw0, mkAddr st.nextAddrSeed, F, .active⟩ with
  | false =>
    have h1 : List.countP (isActivePair pw dw)
        [⟨st.nextContractId, pw0, dw0, mkAddr st.nextAddrSeed, F, .active⟩]
        = 0 := by
      simp [List.countP_cons, hr]
    rw [h1]
    simpa using hInv pw dw
  | true =>
    obtain ⟨hpw, hdw, _⟩ := (isActivePair_true_iff pw dw _).mp hr
    simp only at hpw hdw
    subst hpw hdw
    have h0 : List.countP (isActivePair pw0 dw0) st.contracts = 0 := by
      rw [List.countP_eq_zero]
      intro c hc hpc
      rw [SmartContractService.findByWallets, List.find?_eq_none] at hnone
      exact hnone c hc hpc
    have h1 : List.countP (isActivePair pw0 dw0)
        [⟨st.nextContractId, pw0, dw0, mkAddr st.nextAddrSeed, F, .active⟩]
        = 1 := by
      simp [List.countP_cons, hr]
    rw [h0, h1]

theorem connect_preserves (p d : Nat) (st : RegistryState)
    (hInv : ∀ pw dw, activeGrantCount st pw dw ≤ 1) :
    ∀ pw dw, activeGrantCount (applyOp (.connect p d) st) pw dw ≤ 1 := by
  show ∀ pw dw, activeGrantCount
    (match PatientRoutes.connectDoctor p d st with
     | .ok st' => st'
     | .error _ => st) pw dw ≤ 1
  unfold PatientRoutes.connectDoctor
  cases h1 : st.patients.find? (fun x => decide (x.id = p)) with
  | none => exact hInv
  | some pa =>
    dsimp only
    cases h2 : st.doctors.find? (fun x => decide (x.id = d)) with
    | none => exact hInv
    | some doc =>
      dsimp only
      cases h3 : SmartContractService.findByWallets st pa.walletAddress
          doc.walletAddress with
      | some c => exact hInv
      | none =>
        dsimp only
        exact createContract_preserves pa.walletAddress doc.walletAddress []
          st h3 hInv

theorem updateFields_count (cid : Nat) (F : List String) (st st' : RegistryState)
    (h : SmartContractService.updateApprovedFields cid F st = .ok st') :
    ∀ pw dw, activeGrantCount st' pw dw = activeGrantCount st pw dw := by
  intro pw dw
  unfold SmartContractService.updateApprovedFields at h
  cases hf : st.contracts.find? (fun c => decide (c.id = cid)) with
  | none => rw [hf] at h; exact absurd h (by simp)
  | some row =>
    rw [hf] at h
    dsimp only at h
    injection h with h
    subst h
    show (st.contracts.map (fun c => if c.id = cid
      then { c with approvedFields := F } else c)).countP
        (isActivePair pw dw) = st.contracts.countP (isActivePair pw dw)
    exact countP_ignores_fields st.contracts cid F pw dw

theorem revokeContract_count (cid : Nat) (st st' : RegistryState)
    (h : SmartContractService.revokeContract cid st = .ok st') :
    ∀ pw dw, activeGrantCount st' pw dw ≤ activeGrantCount st pw dw := by
  intro pw dw
  unfold SmartContractService.revokeContract at h
  cases hf : st.contracts.find? (fun c => decide (c.id = cid)) with
  | none => rw [hf] at h; exact absurd h (by simp)
  | some row =>
    rw [hf] at h
    dsimp only at h
    injection h with h
    subst h
    show (st.contracts.map (fun c => if c.id = cid
      then { c with status := CStatus.revoked } else c)).countP
        (isActivePair pw dw) ≤ st.contracts.countP (isActivePair pw dw)
    exact countP_revoke_le st.contracts cid pw dw

theorem respond_preserves (ok : Bool) (p nid : Nat) (a : RespondAction)
    (st : RegistryState)
    (hInv : ∀ pw dw, activeGrantCount st pw dw ≤ 1) :
    ∀ pw dw, activeGrantCount (applyOp (.respond ok p nid a) st) pw dw ≤ 1 := by
  show ∀ pw dw, activeGrantCount
    (PatientRoutes.respondNotification ok p nid a st).2 pw dw ≤ 1
  unfold PatientRoutes.respondNotification
  cases h1 : st.notifications.find? (fun n => decide (n.id = nid)) with
  | none => exact hInv
  | some n =>
    dsimp only
    by_cases h2 : n.patientId = p
    on_goal 2 => rw [if_neg h2]; exact hInv
    rw [if_pos h2]
    have hInv1 : ∀ pw dw, activeGrantCount { st with
        notifications := st.notifications.map
          (fun m => if m.id = nid then { m with status :=
            match a with
            | .approve => NStatus.approved
            | .deny => NStatus.denied } else m) } pw dw ≤ 1 := hInv
    cases a with
    | deny => exact hInv1
    | approve =>
      dsimp only
      cases h3 : st.patients.find? (fun x => decide (x.id = p)) with
      | none =>
        cases h4 : st.doctors.find? (fun x => decide (x.id = n.doctorId))
          <;> exact hInv1
      | some pa =>
        cases h4 : st.doctors.find? (fun x => decide (x.id = n.doctorId)) with
        | none => exact hInv1
        | some doc =>
          cases ok with
          | false => exact hInv1
          | true =>
            dsimp only
            cases h5 : SmartContractService.findByWallets { st with
                notifications := st.notifications.map
                  (fun m => if m.id = nid then { m with status :=
                    NStatus.approved } else m) } pa.walletAddress
                doc.walletAddress with
            | some e =>
              dsimp only
              cases h6 : SmartContractService.updateApprovedFields e.id
                  n.requestedFields { st with
                    notifications := st.notifications.map
                      (fun m => if m.id = nid then { m with status :=
                        NStatus.approved } else m) } with
              | error err => exact hInv1
              | ok st2 =>
                intro pw dw
                show activeGrantCount st2 pw dw ≤ 1
                rw [updateFields_count e.id n.requestedFields _ st2 h6 pw dw]
                exact hInv1 pw dw
            | none =>
              exact createContract_preserves pa.walletAddress
                doc.walletAddress n.requestedFields _ h5 hInv1

theorem request_preserves (did : Nat) (dw0 : String) (pid : Nat)
    (F : List String) (st : RegistryState)
    (hInv : ∀ pw dw, activeGrantCount st pw dw ≤ 1) :
    ∀ pw dw, activeGrantCount (applyOp (.request did dw0 pid F) st) pw dw ≤ 1 := by
  show ∀ pw dw, activeGrantCount
    (match DoctorRoutes.requestAccess did dw0 pid F st with
     | .ok st' => st'
     | .error _ => st) pw dw ≤ 1
  unfold DoctorRoutes.requestAccess
  by_cases h1 : F.isEmpty
  · rw [if_pos h1]; exact hInv
  rw [if_neg h1]
  by_cases h2 : invalidMedicalFields F ≠ []
  · rw [if_pos h2]; exact hInv
  rw [if_neg h2]
  cases h3 : st.patients.find? (fun x => decide (x.id = pid)) with
  | none => exact hInv
  | some pa =>
    dsimp only
    cases h4 : pa.medicalRecordCid with
    | none => exact hInv
    | some cid =>
      dsimp only
      cases h5 : st.notifications.find? (fun n =>
          decide (n.doctorId = did ∧ n.patientId = pid ∧
                  n.status = NStatus.pending)) with
      | some _ => exact hInv
      | none =>
        dsimp only
        cases h6 : SmartContractService.findByWallets st pa.walletAddress dw0 with
        | none => exact hInv
        | some c =>
          dsimp only
          by_cases h7 : c.status = CStatus.active
          · rw [if_pos h7]
            intro pw dw
            exact hInv pw dw
          · rw [if_neg h7]; exact hInv

theorem cancel_preserves (d nid : Nat) (st : RegistryState)
    (hInv : ∀ pw dw, activeGrantCount st pw dw ≤ 1) :
    ∀ pw dw, activeGrantCount (applyOp (.cancel d nid) st) pw dw ≤ 1 := by
  show ∀ pw dw, activeGrantCount
    (match DoctorRoutes.cancelRequest d nid st with
     | .ok st' => st'
     | .error _ => st) pw dw ≤ 1
  unfold DoctorRoutes.cancelRequest
  cases h1 : st.notifications.find? (fun n => decide (n.id = nid)) with
  | none => exact hInv
  | some n =>
    dsimp only
    by_cases h2 : n.doctorId = d
    on_goal 2 => rw [if_neg h2]; exact hInv
    rw [if_pos h2]
    by_cases h3 : n.status = NStatus.pending
    · rw [if_pos h3]; exact hInv
    · rw [if_neg h3]; exact hInv

theorem revoke_preserves (p d : Nat) (st : RegistryState)
    (hInv : ∀ pw dw, activeGrantCount st pw dw ≤ 1) :
    ∀ pw dw, activeGrantCount (applyOp (.revoke p d) st) pw dw ≤ 1 := by
  show ∀ pw dw, activeGrantCount
    (match PatientRoutes.revokeAccess p d st with
     | .ok st' => st'
     | .error _ => st) pw dw ≤ 1
  unfold PatientRoutes.revokeAccess
  cases h1 : st.patients.find? (fun x => decide (x.id = p)) with
  | none => exact hInv
  | some pa =>
    dsimp only
    cases h2 : st.doctors.find? (fun x => decide (x.id = d)) with
    | none => exact hInv
    | some doc =>
      dsimp only
      cases h3 : SmartContractService.findByWallets st pa.walletAddress
          doc.walletAddress with
      | none => exact hInv
      | some c =>
        dsimp only
        cases h4 : SmartContractService.revokeContract c.id st with
        | error err => exact hInv
        | ok st' =>
          intro pw dw
          exact le_trans (revokeContract_count c.id st st' h4 pw dw) (hInv pw dw)

theorem applyOp_preserves (op : RegOp) (st : RegistryState)
    (hInv : ∀ pw dw, activeGrantCount st pw dw ≤ 1) :
    ∀ pw dw, activeGrantCount (applyOp op st) pw dw ≤ 1 := by
  cases op with
  | connect p d => exact connect_preserves p d st hInv
  | request did dw0 pid F => exact request_preserves did dw0 pid F st hInv
  | respond ok p nid a => exact respond_preserves ok p nid a st hInv
  | cancel d nid => exact cancel_preserves d nid st hInv
  | revoke p d => exact revoke_preserves p d st hInv

/-- C7: the single-active-grant invariant — in every state reachable by any
sequence of registry operations from a state where each (holder, requester)
pair has at most one Active grant, each pair still has at most one Active
grant. -/
theorem c7_single_active_grant (ops : List RegOp) (st : RegistryState)
    (hInv : ∀ pw dw, activeGrantCount st pw dw ≤ 1) :
    ∀ pw dw, activeGrantCount (runOps ops st) pw dw ≤ 1 := by
  induction ops generalizing st with
  | nil => exact hInv
  | cons op rest ih => exact ih (applyOp op st) (applyOp_preserves op st hInv)

/-- Witness for C7: from an initial state with no contracts, a connect
followed by a request, an approval and a reconnection attempt keeps at most
one active grant per pair. -/
theorem c7_single_active_grant_witness :
    (∀ pw dw, activeGrantCount
      (RegistryState.mk [⟨1, "pw", some "cid"⟩] [⟨1, "dw"⟩] [] [] [] 0 0 0)
      pw dw ≤ 1) ∧
    (∀ pw dw, activeGrantCount
      (runOps [.connect 1 1, .request 1 "dw" 1 ["vitals.heartRate"],
               .respond true 1 0 .approve, .connect 1 1]
        (RegistryState.mk [⟨1, "pw", some "cid"⟩] [⟨1, "dw"⟩] [] [] [] 0 0 0))
      pw dw ≤ 1) :=
  ⟨fun pw dw => by simp [activeGrantCount],
   c7_single_active_grant _ _ (fun pw dw => by simp [activeGrantCount])⟩

theorem isActivePair_ignores_fields (pw dw : String) (cid : Nat)
    (F : List String) (c : ContractRow) :
    isActivePair pw dw (if c.id = cid then { c with approvedFields := F }
      else c) = isActivePair pw dw c := by
  by_cases h : c.id = cid <;> simp [h, isActivePair]

/-- C2: approval replaces rather than unions — after the holder approves a
pending access request, the approved field set for the pair equals exactly the
request's requested field set (any previously approved set is overwritten). -/
theorem c2_approval_replaces (st : RegistryState) (hid nid : Nat)
    (n : NotificationRow) (pa : PatientRow) (doc : DoctorRow)
    (hn : st.notifications.find? (fun m => decide (m.id = nid)) = some n)
    (hown : n.patientId = hid)
    (hpend : n.status = NStatus.pending)
    (hp : st.patients.find? (fun x => decide (x.id = hid)) = some pa)
    (hd : st.doctors.find? (fun x => decide (x.id = n.doctorId)) = some doc) :
    (PatientRoutes.respondNotification true hid nid .approve st).1 = none ∧
    SmartContractService.getApprovedFields
      (PatientRoutes.respondNotification true hid nid .approve st).2
      pa.walletAddress doc.walletAddress = n.requestedFields := by
  unfold PatientRoutes.respondNotification
  rw [hn]
  dsimp only
  rw [if_pos hown]
  rw [hp, hd]
  dsimp only
  simp only [eq_self_iff_true, if_true]
  unfold SmartContractService.findByWallets
    SmartContractService.updateApprovedFields
    SmartContractService.getApprovedFields
    SmartContractService.createContract
  dsimp only
  cases hE : st.contracts.find?
      (isActivePair pa.walletAddress doc.walletAddress) with
  | none =>
    dsimp only
    constructor
    · rfl
    · rw [List.find?_append, hE]
      have hnew : List.find? (isActivePair pa.walletAddress doc.walletAddress)
          [⟨st.nextContractId, pa.walletAddress, doc.walletAddress,
            mkAddr st.nextAddrSeed, n.requestedFields, .active⟩] =
          some ⟨st.nextContractId, pa.walletAddress, doc.walletAddress,
            mkAddr st.nextAddrSeed, n.requestedFields, .active⟩ := by
        simp [List.find?_cons, isActivePair]
      rw [hnew]
      rfl
  | some e =>
    dsimp only
    have hmem := List.mem_of_find?_eq_some hE
    cases hfid : st.contracts.find? (fun c => decide (c.id = e.id)) with
    | none =>
      rw [List.find?_eq_none] at hfid
      exact absurd (by simp : (fun c => decide (c.id = e.id)) e = true)
        (hfid e hmem)
    | some row =>
      dsimp only
      constructor
      · rfl
      · rw [find?_map_pred st.contracts _
          (isActivePair pa.walletAddress doc.walletAddress)
          (isActivePair_ignores_fields pa.walletAddress doc.walletAddress
            e.id n.requestedFields), hE]
        simp

/-- Witness for C2: a concrete pending request for `["vitals.heartRate"]`
over an existing empty grant; after approval the approved set equals exactly
the requested set. -/
theorem c2_approval_replaces_witness :
    ((RegistryState.mk [⟨1, "pw", some "cid"⟩] [⟨1, "dw"⟩]
        [⟨0, "pw", "dw", "contract_0", ["medicalHistory.conditions"],
          CStatus.active⟩]
        [⟨0, 1, 1, ["vitals.heartRate"], NStatus.pending⟩]
        [⟨"contract_0", "pw", "dw", ["medicalHistory.conditions"], true⟩]
        1 1 1).notifications.find? (fun m => decide (m.id = 0)) =
      some ⟨0, 1, 1, ["vitals.heartRate"], NStatus.pending⟩) ∧
    ((PatientRoutes.respondNotification true 1 0 .approve
        (RegistryState.mk [⟨1, "pw", some "cid"⟩] [⟨1, "dw"⟩]
          [⟨0, "pw", "dw", "contract_0", ["medicalHistory.conditions"],
            CStatus.active⟩]
          [⟨0, 1, 1, ["vitals.heartRate"], NStatus.pending⟩]
          [⟨"contract_0", "pw", "dw", ["medicalHistory.conditions"], true⟩]
          1 1 1)).1 = none ∧
      SmartContractService.getApprovedFields
        (PatientRoutes.respondNotification true 1 0 .approve
          (RegistryState.mk [⟨1, "pw", some "cid"⟩] [⟨1, "dw"⟩]
            [⟨0, "pw", "dw", "contract_0", ["medicalHistory.conditions"],
              CStatus.active⟩]
            [⟨0, 1, 1, ["vitals.heartRate"], NStatus.pending⟩]
            [⟨"contract_0", "pw", "dw", ["medicalHistory.conditions"], true⟩]
            1 1 1)).2
        "pw" "dw" = ["vitals.heartRate"]) :=
  ⟨rfl,
   c2_approval_replaces
     (RegistryState.mk [⟨1, "pw", some "cid"⟩] [⟨1, "dw"⟩]
       [⟨0, "pw", "dw", "contract_0", ["medicalHistory.conditions"],
         CStatus.active⟩]
       [⟨0, 1, 1, ["vitals.heartRate"], NStatus.pending⟩]
       [⟨"contract_0", "pw", "dw", ["medicalHistory.conditions"], true⟩]
       1 1 1)
     1 0 ⟨0, 1, 1, ["vitals.heartRate"], NStatus.pending⟩
     ⟨1, "pw", some "cid"⟩ ⟨1, "dw"⟩ rfl rfl rfl rfl rfl⟩

theorem memLookup_memSet (l : List MemContract) (m : MemContract) :
    memLookup (memSet l m) m.address = some m := by
  induction l with
  | nil => simp [memSet, memLookup, List.find?_cons]
  | cons x rest ih =>
    by_cases h : x.address = m.address
    · simp [memSet, h, memLookup, List.find?_cons]
    · simp only [memSet, if_neg h]
      show memLookup (x :: memSet rest m) m.address = some m
      rw [memLookup, List.find?_cons,
        (by simp [h] : (decide (x.address = m.address)) = false)]
      exact ih

/-- C3 counterexample: the claim says revoke clears the grant's approvedFields
to the empty set, but in the state reached by connect, request, approve and
revoke, the grant row is Revoked while its stored `approved_fields` still
holds the previously approved set. -/
theorem c3_revoke_counterexample :
    ((runOps [.connect 1 1, .request 1 "dw" 1 ["vitals.heartRate"],
        .respond true 1 0 .approve, .revoke 1 1]
        (RegistryState.mk [⟨1, "pw", some "cid"⟩] [⟨1, "dw"⟩] [] [] []
          0 0 0)).contracts.find? (fun c => decide (c.id = 0))).map
        (fun c => (c.status, c.approvedFields)) =
      some (CStatus.revoked, ["vitals.heartRate"]) ∧
    (["vitals.heartRate"] : List String) ≠ [] := by
  constructor
  · rfl
  · simp

/-- C3 (amended): revoke sets the grant row's status to Revoked but leaves
the row's stored approvedFields unchanged (only the in-memory contract
object, when present in the service map, has its fields cleared); afterwards
`getApprovedFields` returns the empty set and a subsequent `requestAccess`
by the same requester fails with NoActiveConnection. -/
theorem c3_revoke_postconditions (st : RegistryState) (hid did : Nat)
    (pa : PatientRow) (doc : DoctorRow) (c : ContractRow) (F : List String)
    (cid0 : String)
    (hp : st.patients.find? (fun x => decide (x.id = hid)) = some pa)
    (hd : st.doctors.find? (fun x => decide (x.id = did)) = some doc)
    (hc : st.contracts.find?
      (isActivePair pa.walletAddress doc.walletAddress) = some c)
    (huniq : ∀ c' ∈ st.contracts,
      isActivePair pa.walletAddress doc.walletAddress c' = true → c'.id = c.id)
    (hpend : st.notifications.find? (fun n => decide (n.doctorId = did ∧
        n.patientId = hid ∧ n.status = NStatus.pending)) = none)
    (hcid : pa.medicalRecordCid = some cid0)
    (hF : F ≠ [])
    (hFv : invalidMedicalFields F = []) :
    ∃ st', PatientRoutes.revokeAccess hid did st = .ok st' ∧
      (∀ x, st.contracts.find? (fun y => decide (y.id = c.id)) = some x →
        st'.contracts.find? (fun y => decide (y.id = c.id)) =
          some { x with status := CStatus.revoked } ∧
        (∀ m, memLookup st.memContracts x.contractAddress = some m →
          memLookup st'.memContracts x.contractAddress =
            some { m with isActive := false, approvedFields := [] })) ∧
      SmartContractService.getApprovedFields st' pa.walletAddress
        doc.walletAddress = [] ∧
      DoctorRoutes.requestAccess did doc.walletAddress hid F st' =
        .error .noConnection := by
  unfold PatientRoutes.revokeAccess
  rw [hp, hd]
  dsimp only
  unfold SmartContractService.findByWallets
  rw [hc]
  dsimp only
  unfold SmartContractService.revokeContract
  have hcmem := List.mem_of_find?_eq_some hc
  cases hfid : st.contracts.find? (fun y => decide (y.id = c.id)) with
  | none =>
    rw [List.find?_eq_none] at hfid
    exact absurd (by simp : (fun y => decide (y.id = c.id)) c = true)
      (hfid c hcmem)
  | some x =>
    dsimp only
    refine ⟨_, rfl, ?_, ?_, ?_⟩
    · intro x0 hx0
      injection hx0 with hx0
      subst hx0
      dsimp only
      have hxid : x.id = c.id := by
        have := List.find?_some hfid
        simpa using this
      constructor
      · rw [find?_map_pred st.contracts _ (fun y => decide (y.id = c.id))
          (by intro y; by_cases h : y.id = c.id <;> simp [h]), hfid]
        simp [hxid]
      · intro m hm
        have hmaddr : m.address = x.contractAddress := by
          have := List.find?_some hm
          simpa using this
        show memLookup (match memLookup st.memContracts x.contractAddress with
          | some m => memSet st.memContracts
              { m with isActive := false, approvedFields := [] }
          | none => st.memContracts) x.contractAddress =
          some { m with isActive := false, approvedFields := [] }
        rw [hm]
        rw [← hmaddr]
        exact memLookup_memSet st.memContracts
          { m with isActive := false, approvedFields := [] }
    · have hnone : (st.contracts.map (fun y => if y.id = c.id
          then { y with status := CStatus.revoked } else y)).find?
          (isActivePair pa.walletAddress doc.walletAddress) = none := by
        rw [List.find?_eq_none]
        intro y' hy' hpy'
        obtain ⟨y, hy, rfl⟩ := List.mem_map.mp hy'
        by_cases h : y.id = c.id
        · rw [if_pos h] at hpy'
          simp [isActivePair] at hpy'
        · rw [if_neg h] at hpy'
          exact h (huniq y hy hpy')
      show SmartContractService.getApprovedFields _ pa.walletAddress
        doc.walletAddress = []
      unfold SmartContractService.getApprovedFields
      dsimp only
      rw [hnone]
    · have hnone : (st.contracts.map (fun y => if y.id = c.id
          then { y with status := CStatus.revoked } else y)).find?
          (isActivePair pa.walletAddress doc.walletAddress) = none := by
        rw [List.find?_eq_none]
        intro y' hy' hpy'
        obtain ⟨y, hy, rfl⟩ := List.mem_map.mp hy'
        by_cases h : y.id = c.id
        · rw [if_pos h] at hpy'
          simp [isActivePair] at hpy'
        · rw [if_neg h] at hpy'
          exact h (huniq y hy hpy')
      unfold DoctorRoutes.requestAccess
      rw [if_neg (by simp [List.isEmpty_iff, hF])]
      rw [if_neg (by simp [hFv])]
      dsimp only
      rw [hp]
      dsimp only
      rw [hcid]
      dsimp only
      rw [hpend]
      dsimp only
      unfold SmartContractService.findByWallets
      dsimp only
      rw [hnone]

/-- Witness for C3's amended statement at a concrete state with one active
grant holding one approved field. -/
theorem c3_revoke_postconditions_witness :
    ((RegistryState.mk [⟨1, "pw", some "cid"⟩] [⟨1, "dw"⟩]
        [⟨0, "pw", "dw", "contract_0", ["vitals.heartRate"], CStatus.active⟩]
        [] [⟨"contract_0", "pw", "dw", ["vitals.heartRate"], true⟩]
        1 1 1).contracts.find? (isActivePair "pw" "dw") =
      some ⟨0, "pw", "dw", "contract_0", ["vitals.heartRate"],
        CStatus.active⟩) ∧
    (∃ st', PatientRoutes.revokeAccess 1 1
        (RegistryState.mk [⟨1, "pw", some "cid"⟩] [⟨1, "dw"⟩]
          [⟨0, "pw", "dw", "contract_0", ["vitals.heartRate"],
            CStatus.active⟩]
          [] [⟨"contract_0", "pw", "dw", ["vitals.heartRate"], true⟩]
          1 1 1) = .ok st' ∧
      (∀ x, (RegistryState.mk [⟨1, "pw", some "cid"⟩] [⟨1, "dw"⟩]
          [⟨0, "pw", "dw", "contract_0", ["vitals.heartRate"],
            CStatus.active⟩]
          [] [⟨"contract_0", "pw", "dw", ["vitals.heartRate"], true⟩]
          1 1 1).contracts.find? (fun y => decide (y.id = 0)) = some x →
        st'.contracts.find? (fun y => decide (y.id = 0)) =
          some { x with status := CStatus.revoked } ∧
        (∀ m, memLookup [⟨"contract_0", "pw", "dw", ["vitals.heartRate"],
            true⟩] x.contractAddress = some m →
          memLookup st'.memContracts x.contractAddress =
            some { m with isActive := false, approvedFields := [] })) ∧
      SmartContractService.getApprovedFields st' "pw" "dw" = [] ∧
      DoctorRoutes.requestAccess 1 "dw" 1 ["vitals.heartRate"] st' =
        .error .noConnection) :=
  ⟨rfl,
   c3_revoke_postconditions
     (RegistryState.mk [⟨1, "pw", some "cid"⟩] [⟨1, "dw"⟩]
       [⟨0, "pw", "dw", "contract_0", ["vitals.heartRate"], CStatus.active⟩]
       [] [⟨"contract_0", "pw", "dw", ["vitals.heartRate"], true⟩]
       1 1 1)
     1 1 ⟨1, "pw", some "cid"⟩ ⟨1, "dw"⟩
     ⟨0, "pw", "dw", "contract_0", ["vitals.heartRate"], CStatus.active⟩
     ["vitals.heartRate"] "cid" rfl rfl rfl (by decide) rfl rfl (by simp)
     rfl⟩

/-- C4 counterexample: the claim says requestAccess fails with
NoActiveConnection when no Active grant exists for the pair, but in the
reachable state where the grant was revoked while a pending request is still
on file, requestAccess fails with DuplicateRequest instead (the code checks
the pending request before the connection). -/
theorem c4_requestAccess_counterexample :
    DoctorRoutes.requestAccess 1 "dw" 1 ["vitals.heartRate"]
      (runOps [.connect 1 1, .request 1 "dw" 1 ["vitals.heartRate"],
        .revoke 1 1]
        (RegistryState.mk [⟨1, "pw", some "cid"⟩] [⟨1, "dw"⟩] [] [] []
          0 0 0)) = .error .duplicateRequest ∧
    (runOps [.connect 1 1, .request 1 "dw" 1 ["vitals.heartRate"],
        .revoke 1 1]
        (RegistryState.mk [⟨1, "pw", some "cid"⟩] [⟨1, "dw"⟩] [] [] []
          0 0 0)).contracts.find? (isActivePair "pw" "dw") = none ∧
    ApiError.duplicateRequest ≠ ApiError.noConnection := by
  refine ⟨rfl, rfl, by decide⟩

/-- C4 (amended): the requestAccess error contract with the source's check
order — empty field list first, then unrecognized fields, then (for an
existing patient with a record) an already-pending request for the pair, then
the missing active connection; on success exactly one new Pending
AccessRequest is appended and nothing else changes. -/
theorem c4_requestAccess_error_contract (did : Nat) (dw0 : String) (pid : Nat)
    (F : List String) (st : RegistryState) :
    (F = [] →
      DoctorRoutes.requestAccess did dw0 pid F st = .error .emptyFields) ∧
    (F ≠ [] → invalidMedicalFields F ≠ [] →
      DoctorRoutes.requestAccess did dw0 pid F st = .error .invalidFields) ∧
    (∀ pa cid0, F ≠ [] → invalidMedicalFields F = [] →
      st.patients.find? (fun x => decide (x.id = pid)) = some pa →
      pa.medicalRecordCid = some cid0 →
      ((∀ n, st.notifications.find? (fun m => decide (m.doctorId = did ∧
            m.patientId = pid ∧ m.status = NStatus.pending)) = some n →
          DoctorRoutes.requestAccess did dw0 pid F st =
            .error .duplicateRequest) ∧
       (st.notifications.find? (fun m => decide (m.doctorId = did ∧
            m.patientId = pid ∧ m.status = NStatus.pending)) = none →
         ((st.contracts.find? (isActivePair pa.walletAddress dw0) = none →
            DoctorRoutes.requestAccess did dw0 pid F st =
              .error .noConnection) ∧
          (∀ c, st.contracts.find? (isActivePair pa.walletAddress dw0) =
              some c →
            DoctorRoutes.requestAccess did dw0 pid F st =
              .ok { st with
                notifications := st.notifications ++
                  [⟨st.nextNotificationId, did, pid, F, .pending⟩]
                nextNotificationId := st.nextNotificationId + 1 }))))) := by
  refine ⟨?_, ?_, ?_⟩
  · intro hF
    subst hF
    rfl
  · intro hF hbad
    unfold DoctorRoutes.requestAccess
    rw [if_neg (by simp [List.isEmpty_iff, hF]), if_pos hbad]
  · intro pa cid0 hF hvalid hp hcid
    constructor
    · intro n hn
      unfold DoctorRoutes.requestAccess
      rw [if_neg (by simp [List.isEmpty_iff, hF]),
        if_neg (by simp [hvalid]), hp]
      dsimp only
      rw [hcid]
      dsimp only
      rw [hn]
    · intro hpend
      constructor
      · intro hnoc
        unfold DoctorRoutes.requestAccess
        rw [if_neg (by simp [List.isEmpty_iff, hF]),
          if_neg (by simp [hvalid]), hp]
        dsimp only
        rw [hcid]
        dsimp only
        rw [hpend]
        dsimp only
        unfold SmartContractService.findByWallets
        rw [hnoc]
      · intro c hc
        have hact : c.status = CStatus.active := by
          have := List.find?_some hc
          rw [isActivePair_true_iff] at this
          exact this.2.2
        unfold DoctorRoutes.requestAccess
        rw [if_neg (by simp [List.isEmpty_iff, hF]),
          if_neg (by simp [hvalid]), hp]
        dsimp only
        rw [hcid]
        dsimp only
        rw [hpend]
        dsimp only
        unfold SmartContractService.findByWallets
        rw [hc]
        dsimp only
        rw [if_pos hact]

/-- Witness for C4's amended contract: each clause instantiated at a
concrete state (patient 1 with a record, doctor 1, one pending request, one
revoked grant and one active grant as each clause needs). -/
theorem c4_requestAccess_error_contract_witness :
    DoctorRoutes.requestAccess 1 "dw" 1 []
      (RegistryState.mk [⟨1, "pw", some "cid"⟩] [⟨1, "dw"⟩] [] [] [] 0 0 0) =
      .error .emptyFields ∧
    DoctorRoutes.requestAccess 1 "dw" 1 ["boguspath"]
      (RegistryState.mk [⟨1, "pw", some "cid"⟩] [⟨1, "dw"⟩] [] [] [] 0 0 0) =
      .error .invalidFields ∧
    DoctorRoutes.requestAccess 1 "dw" 1 ["vitals.heartRate"]
      (RegistryState.mk [⟨1, "pw", some "cid"⟩] [⟨1, "dw"⟩]
        [⟨0, "pw", "dw", "contract_0", [], CStatus.active⟩]
        [⟨0, 1, 1, ["vitals.weight"], NStatus.pending⟩] [] 1 1 1) =
      .error .duplicateRequest ∧
    DoctorRoutes.requestAccess 1 "dw" 1 ["vitals.heartRate"]
      (RegistryState.mk [⟨1, "pw", some "cid"⟩] [⟨1, "dw"⟩] [] [] [] 0 0 0) =
      .error .noConnection ∧
    DoctorRoutes.requestAccess 1 "dw" 1 ["vitals.heartRate"]
      (RegistryState.mk [⟨1, "pw", some "cid"⟩] [⟨1, "dw"⟩]
        [⟨0, "pw", "dw", "contract_0", [], CStatus.active⟩] [] [] 1 0 1) =
      .ok (RegistryState.mk [⟨1, "pw", some "cid"⟩] [⟨1, "dw"⟩]
        [⟨0, "pw", "dw", "contract_0", [], CStatus.active⟩]
        [⟨0, 1, 1, ["vitals.heartRate"], NStatus.pending⟩] [] 1 1 1) :=
  ⟨(c4_requestAccess_error_contract 1 "dw" 1 []
      (RegistryState.mk [⟨1, "pw", some "cid"⟩] [⟨1, "dw"⟩] [] [] []
        0 0 0)).1 rfl,
   (c4_requestAccess_error_contract 1 "dw" 1 ["boguspath"]
      (RegistryState.mk [⟨1, "pw", some "cid"⟩] [⟨1, "dw"⟩] [] [] []
        0 0 0)).2.1 (by simp) (by decide),
   ((c4_requestAccess_error_contract 1 "dw" 1 ["vitals.heartRate"]
      (RegistryState.mk [⟨1, "pw", some "cid"⟩] [⟨1, "dw"⟩]
        [⟨0, "pw", "dw", "contract_0", [], CStatus.active⟩]
        [⟨0, 1, 1, ["vitals.weight"], NStatus.pending⟩] [] 1 1 1)).2.2
      ⟨1, "pw", some "cid"⟩ "cid" (by simp) rfl rfl rfl).1
      ⟨0, 1, 1, ["vitals.weight"], NStatus.pending⟩ rfl,
   (((c4_requestAccess_error_contract 1 "dw" 1 ["vitals.heartRate"]
      (RegistryState.mk [⟨1, "pw", some "cid"⟩] [⟨1, "dw"⟩] [] [] []
        0 0 0)).2.2
      ⟨1, "pw", some "cid"⟩ "cid" (by simp) rfl rfl rfl).2 rfl).1 rfl,
   (((c4_requestAccess_error_contract 1 "dw" 1 ["vitals.heartRate"]
      (RegistryState.mk [⟨1, "pw", some "cid"⟩] [⟨1, "dw"⟩]
        [⟨0, "pw", "dw", "contract_0", [], CStatus.active⟩] [] []
        1 0 1)).2.2
      ⟨1, "pw", some "cid"⟩ "cid" (by simp) rfl rfl rfl).2 rfl).2
      ⟨0, "pw", "dw", "contract_0", [], CStatus.active⟩ rfl⟩

/-- C5: the code lets a resolved request be re-resolved.  In the reachable
state where request 0 has been approved, responding again with deny is
accepted (no AlreadyResolved rejection) and flips the stored status from
Approved to Denied. -/
theorem c5_resolved_request_reresolved :
    (((runOps [.connect 1 1, .request 1 "dw" 1 ["vitals.heartRate"],
        .respond true 1 0 .approve]
        (RegistryState.mk [⟨1, "pw", some "cid"⟩] [⟨1, "dw"⟩] [] [] []
          0 0 0)).notifications.find? (fun n => decide (n.id = 0))).map
      (fun n => n.status) = some NStatus.approved) ∧
    ((PatientRoutes.respondNotification true 1 0 .deny
      (runOps [.connect 1 1, .request 1 "dw" 1 ["vitals.heartRate"],
        .respond true 1 0 .approve]
        (RegistryState.mk [⟨1, "pw", some "cid"⟩] [⟨1, "dw"⟩] [] [] []
          0 0 0))).1 = none) ∧
    (((PatientRoutes.respondNotification true 1 0 .deny
      (runOps [.connect 1 1, .request 1 "dw" 1 ["vitals.heartRate"],
        .respond true 1 0 .approve]
        (RegistryState.mk [⟨1, "pw", some "cid"⟩] [⟨1, "dw"⟩] [] [] []
          0 0 0))).2.notifications.find? (fun n => decide (n.id = 0))).map
      (fun n => n.status) = some NStatus.denied) :=
  ⟨rfl, rfl, rfl⟩

/-- C6: resolveRequest is not atomic.  In the reachable state with a pending
request, approving while the contract-store write fails leaves the request
marked Approved with the grant not updated, and the caller receives an
error — the state is not as if the operation had not run. -/
theorem c6_partial_state_on_store_failure :
    ((PatientRoutes.respondNotification false 1 0 .approve
      (runOps [.connect 1 1, .request 1 "dw" 1 ["vitals.heartRate"]]
        (RegistryState.mk [⟨1, "pw", some "cid"⟩] [⟨1, "dw"⟩] [] [] []
          0 0 0))).1 = some .storageFailure) ∧
    (((PatientRoutes.respondNotification false 1 0 .approve
      (runOps [.connect 1 1, .request 1 "dw" 1 ["vitals.heartRate"]]
        (RegistryState.mk [⟨1, "pw", some "cid"⟩] [⟨1, "dw"⟩] [] [] []
          0 0 0))).2.notifications.find? (fun n => decide (n.id = 0))).map
      (fun n => n.status) = some NStatus.approved) ∧
    ((PatientRoutes.respondNotification false 1 0 .approve
      (runOps [.connect 1 1, .request 1 "dw" 1 ["vitals.heartRate"]]
        (RegistryState.mk [⟨1, "pw", some "cid"⟩] [⟨1, "dw"⟩] [] [] []
          0 0 0))).2.contracts =
      [⟨0, "pw", "dw", "contract_0", [], CStatus.active⟩]) ∧
    SmartContractService.getApprovedFields
      (PatientRoutes.respondNotification false 1 0 .approve
        (runOps [.connect 1 1, .request 1 "dw" 1 ["vitals.heartRate"]]
          (RegistryState.mk [⟨1, "pw", some "cid"⟩] [⟨1, "dw"⟩] [] [] []
            0 0 0))).2 "pw" "dw" = [] ∧
    (([] : List String) ≠ ["vitals.heartRate"]) :=
  ⟨rfl, rfl, rfl, rfl, by simp⟩

end MedVault
